import Mathlib

set_option maxHeartbeats 1000000
set_option maxRecDepth 2000

namespace McpSearch

/-! Shallow embedding of the dual cache engine of mcp-search:
`FetchCacheManager` (fetchCache module), `CacheManager` (search cache module)
and the pure content-processing helpers (contentProcessing module).
Byte buffers are lists of naturals, JS `Date` values are naturals
(milliseconds), JS `Map`s are association lists in insertion order, and
external collaborators (HTML-to-text, JSON pretty-printing, UTF-8 decoding,
the RegExp engine) are explicit function parameters. -/

/-- A raw byte buffer (Node `Buffer`), modelled as a list of bytes. -/
abbrev Buf := List Nat

/-- Request/response header records. -/
abbrev Headers := List (String × String)

/-- Lifecycle status of a fetch cache record. -/
inductive FetchStatus
| inProgress
| completed
| error
deriving DecidableEq

/-- The `FetchCache` record interface of the fetch cache module. -/
structure FetchCache where
  requestId : String
  url : String
  method : String
  headers : Option Headers := none
  timestamp : Nat
  expiresAt : Nat
  status : FetchStatus
  httpStatus : Option Nat := none
  statusText : Option String := none
  contentType : Option String := none
  expectedSize : Option Nat := none
  fetchedSize : Nat := 0
  responseHeaders : Option Headers := none
  data : Buf := []
  error : Option String := none
  errorCode : Option String := none
deriving DecidableEq

/-- The initial `InProgress` cache entry inserted before any bytes arrive. -/
def initialEntry (requestId url method : String) (headers : Option Headers)
    (timestamp expiresAt : Nat) : FetchCache :=
  { requestId := requestId
    url := url
    method := method
    headers := headers
    timestamp := timestamp
    expiresAt := expiresAt
    status := .inProgress
    fetchedSize := 0
    data := [] }

/-- The body-streaming loop of `fetchAndCache`: chunks are appended while the
accumulated size stays within `maxFileSize`; the first chunk that would push
past the limit is truncated to the remaining budget and reading stops there. -/
def readChunks (maxFileSize : Nat) (fetchedSize : Nat) : List Buf → List Buf
  | [] => []
  | value :: rest =>
    if fetchedSize + value.length > maxFileSize then
      let remainingSize := maxFileSize - fetchedSize
      if remainingSize > 0 then [value.take remainingSize] else []
    else
      value :: readChunks maxFileSize (fetchedSize + value.length) rest

/-- All stored data: the concatenation of the collected chunks. -/
def allDataOf (maxFileSize : Nat) (chunks : List Buf) : Buf :=
  (readChunks maxFileSize 0 chunks).flatten

/-- The `fetchedSize` counter after the streaming loop. -/
def fetchedSizeOf (maxFileSize : Nat) (chunks : List Buf) : Nat :=
  ((readChunks maxFileSize 0 chunks).map List.length).sum

/-- The synthesized error of the finalization step:
`HTTP <code>: <statusText>` for status codes at least 400, nothing below. -/
def computedError (httpStatus : Nat) (statusText : String) : Option String :=
  if httpStatus ≥ 400 then some ("HTTP " ++ toString httpStatus ++ ": " ++ statusText)
  else none

/-- The finalized cache entry written once the stream ends:
`Completed` exactly for status codes in `[200,300)`, else `Error`. -/
def mkFinalEntry (cacheEntry : FetchCache) (httpStatus : Nat) (statusText : String)
    (contentType : Option String) (expectedSize : Option Nat)
    (responseHeaders : Option Headers) (allData : Buf) (fetchedSize : Nat) : FetchCache :=
  { cacheEntry with
    status := if 200 ≤ httpStatus ∧ httpStatus < 300 then .completed else .error
    httpStatus := some httpStatus
    statusText := some statusText
    contentType := contentType
    expectedSize := expectedSize
    fetchedSize := fetchedSize
    responseHeaders := responseHeaders
    data := allData
    error := computedError httpStatus statusText }

/-- Lookup in a JS `Map`, modelled as an association list in insertion order. -/
def mapGet {α : Type} (k : String) : List (String × α) → Option α
  | [] => none
  | (k', v) :: rest => if k' = k then some v else mapGet k rest

/-- `Map.set`: replace the value in place when the key exists, else append. -/
def mapSet {α : Type} (k : String) (v : α) : List (String × α) → List (String × α)
  | [] => [(k, v)]
  | (k', v') :: rest => if k' = k then (k, v) :: rest else (k', v') :: mapSet k v rest

/-- `Map.delete`: drop the entry with the given key. -/
def mapDelete {α : Type} (k : String) : List (String × α) → List (String × α)
  | [] => []
  | (k', v') :: rest => if k' = k then rest else (k', v') :: mapDelete k rest

/-- The private state of the fetch cache manager: the record map and the
LRU access-order list (least recently touched first). -/
structure FetchStore where
  cache : List (String × FetchCache)
  accessOrder : List String
deriving DecidableEq

/-- `updateAccessOrder`: move the id to the most-recently-used end. -/
def updateAccessOrder (requestId : String) (accessOrder : List String) : List String :=
  accessOrder.erase requestId ++ [requestId]

/-- `removeCache`: delete the record and its access-order slot. -/
def removeCache (st : FetchStore) (requestId : String) : FetchStore :=
  { cache := mapDelete requestId st.cache
    accessOrder := st.accessOrder.erase requestId }

/-- `isExpired`: a record is expired once the current time passes `expiresAt`. -/
def isExpired (now : Nat) (expiresAt : Nat) : Bool :=
  now > expiresAt

/-- `getByRequestId`: miss on unknown id; lazily delete and miss on an
expired record; touch the access order on a hit. -/
def getByRequestId (now : Nat) (st : FetchStore) (requestId : String) :
    Option FetchCache × FetchStore :=
  match mapGet requestId st.cache with
  | none => (none, st)
  | some cache =>
    if isExpired now cache.expiresAt then (none, removeCache st requestId)
    else (some cache, { st with accessOrder := updateAccessOrder requestId st.accessOrder })

/-- `getTotalCacheSize`: sum of stored buffer lengths over all records. -/
def getTotalCacheSize (cache : List (String × FetchCache)) : Nat :=
  (cache.map (fun p => p.2.data.length)).sum

/-- The eviction loop of `enforceStorageLimit`: while the freed bytes do not
yet cover the excess and the access-order list is non-empty, shift the
least-recently-touched id and delete its record. -/
def evictLoop (excessSize : Nat) (freedSize : Nat) (cache : List (String × FetchCache)) :
    List String → List (String × FetchCache) × List String
  | [] => (cache, [])
  | oldest :: rest =>
    if freedSize < excessSize then
      match mapGet oldest cache with
      | some oldCache =>
        evictLoop excessSize (freedSize + oldCache.data.length) (mapDelete oldest cache) rest
      | none => evictLoop excessSize freedSize cache rest
    else (cache, oldest :: rest)

/-- `enforceStorageLimit`: when the projected total would exceed the global
budget, evict least-recently-touched records until the excess is freed. -/
def enforceStorageLimit (maxTotalCacheSize : Nat) (newDataSize : Nat) (st : FetchStore) :
    FetchStore :=
  let currentTotal := getTotalCacheSize st.cache
  let projectedTotal := currentTotal + newDataSize
  if projectedTotal > maxTotalCacheSize then
    let res := evictLoop (projectedTotal - maxTotalCacheSize) 0 st.cache st.accessOrder
    { cache := res.1, accessOrder := res.2 }
  else st

/-- The loop of `evictOldest`: while the record count exceeds the cap and the
access-order list is non-empty, shift the oldest id and remove its record. -/
def evictOldestLoop (maxCacheSize : Nat) (cache : List (String × FetchCache)) :
    List String → List (String × FetchCache) × List String
  | [] => (cache, [])
  | oldest :: rest =>
    if cache.length > maxCacheSize then
      evictOldestLoop maxCacheSize (mapDelete oldest cache) (rest.erase oldest)
    else (cache, oldest :: rest)
termination_by order => order.length
decreasing_by
  exact Nat.lt_succ_of_le (List.length_erase_le oldest rest)

/-- The insert-then-finalize state transition of `fetchAndCache`: insert the
`InProgress` entry, run the byte-budget eviction for the incoming size,
overwrite with the finalized entry, then apply the entry-count cap. -/
def fetchInsert (maxTotalCacheSize maxCacheSize : Nat) (st : FetchStore)
    (requestId : String) (entry0 finalEntry : FetchCache) (fetchedSize : Nat) : FetchStore :=
  let st1 : FetchStore :=
    { cache := mapSet requestId entry0 st.cache
      accessOrder := updateAccessOrder requestId st.accessOrder }
  let st2 := enforceStorageLimit maxTotalCacheSize fetchedSize st1
  let st3 : FetchStore := { st2 with cache := mapSet requestId finalEntry st2.cache }
  if st3.cache.length > maxCacheSize then
    let res := evictOldestLoop maxCacheSize st3.cache st3.accessOrder
    { cache := res.1, accessOrder := res.2 }
  else st3

/-- External collaborators of the content processor: the HTML-to-text
library (configured to skip script/style), `JSON.parse` composed with
pretty-printing (`none` when parsing fails), and UTF-8 decoding of a
byte buffer. -/
structure Externals where
  htmlToTextSkip : String → String
  jsonParsePretty : String → Option String
  utf8Decode : Buf → String

/-- Detected content kinds. -/
inductive DetectedKind
| html
| text
| json
| xml
| binary
deriving DecidableEq

/-- `detectKind`: classify a content-type header value. -/
def detectKind (contentType : Option String) : DetectedKind :=
  match contentType with
  | none => .binary
  | some s =>
    if s = "" then .binary
    else
      let ct := s.toLower
      if decide ("text/html".data <:+: ct.data) ∨ decide ("application/xhtml+xml".data <:+: ct.data)
        then .html
      else if ct.startsWith "text/" then .text
      else if decide ("application/json".data <:+: ct.data) then .json
      else if decide ("application/xml".data <:+: ct.data) ∨ decide ("text/xml".data <:+: ct.data)
        then .xml
      else .binary

/-- `toText`: convert a buffer to text according to the detected kind.
HTML goes through the HTML-to-text library, JSON is pretty-printed with a
fallback to the raw decoded text, text/xml are decoded as-is, binary is
the empty string. -/
def toText (ext : Externals) (buffer : Buf) (kind : DetectedKind) : String :=
  match kind with
  | .html => ext.htmlToTextSkip (ext.utf8Decode buffer)
  | .json =>
    let raw := ext.utf8Decode buffer
    match ext.jsonParsePretty raw with
    | some pretty => pretty
    | none => raw
  | .text => ext.utf8Decode buffer
  | .xml => ext.utf8Decode buffer
  | .binary => ""

/-- ASCII whitespace as matched by the JS `\s` class (the Unicode space
classes are not needed by the cached payload claims). -/
def isJsWhitespace (c : Char) : Bool :=
  c = ' ' ∨ c = '\t' ∨ c = '\n' ∨ c = '\r' ∨ c = Char.ofNat 11 ∨ c = Char.ofNat 12

/-- Sentence-terminating punctuation of the summarizer's split pattern,
covering Latin and CJK terminators. -/
def isSentenceTerminator (c : Char) : Bool :=
  c = '。' ∨ c = '．' ∨ c = '！' ∨ c = '？' ∨ c = '!' ∨ c = '?'

/-- The summarizer's split: cut after a sentence terminator followed by a
whitespace run, or at any newline run. -/
def splitSegs (prevTerm : Bool) (cur : List Char) : List Char → List (List Char)
  | [] => [cur.reverse]
  | c :: rest =>
    if prevTerm ∧ isJsWhitespace c then
      cur.reverse :: splitSegs false [] (rest.dropWhile isJsWhitespace)
    else if c = '\n' then
      cur.reverse :: splitSegs false [] (rest.dropWhile (fun c' => c' = '\n'))
    else
      splitSegs (isSentenceTerminator c) (c :: cur) rest
termination_by cs => cs.length
decreasing_by
  · exact Nat.lt_succ_of_le (List.dropWhile_sublist _).length_le
  · exact Nat.lt_succ_of_le (List.dropWhile_sublist _).length_le
  · exact Nat.lt_succ_of_le (Nat.le_refl _)

/-- JS `String.prototype.trim`. -/
def jsTrim (s : String) : String :=
  String.mk (((s.data.dropWhile isJsWhitespace).reverse.dropWhile isJsWhitespace).reverse)

/-- The sentence-selection loop of the summarizer: keep the first
`maxSentences` fragments whose non-whitespace content has length at least 3. -/
def selectSentences (maxSentences : Nat) (selectedCount : Nat) : List String → List String
  | [] => []
  | s :: rest =>
    if selectedCount ≥ maxSentences then []
    else
      let compact := String.mk (s.data.filter (fun c => ¬ isJsWhitespace c))
      if compact.length < 3 then selectSentences maxSentences selectedCount rest
      else s :: selectSentences maxSentences (selectedCount + 1) rest

/-- `summarizeText`: split into candidate sentences, discard short noise,
keep the first `maxSentences`, join with spaces and hard-truncate to
`maxChars` with an ellipsis. -/
def summarizeText (text : String) (maxSentences maxChars : Nat) : String :=
  if text = "" then ""
  else
    let parts := ((splitSegs false [] text.data).map
      (fun cs => jsTrim (String.mk cs))).filter (fun s => s.length > 0)
    let selected := selectSentences maxSentences 0 parts
    let summary := String.intercalate " " selected
    if summary.length > maxChars then
      String.mk (summary.data.take (maxChars - 1)) ++ "…"
    else summary

/-- A character range of a grep match within a line. -/
structure GrepRange where
  start : Nat
  stop : Nat
deriving DecidableEq

/-- One grep match: 1-based line number, context window preview, context
lines, the matched line and its match ranges. -/
structure GrepMatch where
  line : Nat
  preview : String
  before : List String
  matchLine : String
  after : List String
  ranges : Option (List GrepRange)
deriving DecidableEq

/-- The host RegExp engine, abstracted: compilation from a source pattern
and a flags string (`none` models a thrown `SyntaxError`), a per-line test,
and the stream of match ranges produced by repeated `exec` calls with the
zero-width `lastIndex` advance applied. -/
structure RegexEngine (R : Type) where
  compile : String → String → Option R
  test : R → String → Bool
  execRanges : R → String → List GrepRange

/-- The regex metacharacters escaped by `escapeRegex`. -/
def regexMetaChars : List Char :=
  ['.', '*', '+', '?', '^', '$', Char.ofNat 123, Char.ofNat 125, '(', ')', '|', '[', ']', '\\']

/-- `escapeRegex`: prefix every metacharacter with a backslash. -/
def escapeRegex (s : String) : String :=
  String.mk (s.data.flatMap (fun c => if c ∈ regexMetaChars then ['\\', c] else [c]))

/-- Split on `\r?\n`, the line splitter of `grepLike`. -/
def splitLinesAux (cur : List Char) : List Char → List (List Char)
  | [] => [cur.reverse]
  | '\r' :: '\n' :: rest => cur.reverse :: splitLinesAux [] rest
  | '\n' :: rest => cur.reverse :: splitLinesAux [] rest
  | c :: rest => splitLinesAux (c :: cur) rest

/-- The lines of a text, as split by `grepLike`. -/
def splitLines (text : String) : List String :=
  (splitLinesAux [] text.data).map String.mk

/-- `collectRanges`: all non-overlapping match ranges within a line, capped
at 2000, keeping only non-empty ranges. -/
def collectRanges {R : Type} (eng : RegexEngine R) (re : R) (lineText : String)
    (maxMatches : Nat) : List GrepRange :=
  if lineText.length = 0 ∨ maxMatches = 0 then []
  else ((eng.execRanges re lineText).filter (fun r => r.stop > r.start)).take 2000

/-- `buildPreview`: the context window around a matching line. -/
def buildPreview (lines : List String) (idx : Nat) (before : Nat) (after : Nat) :
    List String × List String × String :=
  let startIdx := idx - before
  let endIdx := min (lines.length - 1) (idx + after)
  let beforeLines := (lines.take idx).drop startIdx
  let afterLines := (lines.take (endIdx + 1)).drop (idx + 1)
  let preview := String.intercalate "\n" (beforeLines ++ [lines.getD idx ""] ++ afterLines)
  (beforeLines, afterLines, preview)

/-- Options of `grepLike` with the source defaults. -/
structure GrepOpts where
  isRegex : Bool := false
  caseSensitive : Bool := false
  before : Option Nat := none
  after : Option Nat := none
  context : Nat := 2
  maxMatches : Nat := 20
deriving DecidableEq

/-- The matching loop of `grepLike` over the indexed lines: record a match
per matching line and stop once `maxMatches` lines have matched. -/
def grepLoop {R : Type} (eng : RegexEngine R) (re : R) (allLines : List String)
    (b a maxMatches : Nat) (found : Nat) : List (Nat × String) → List GrepMatch
  | [] => []
  | (i, lineText) :: rest =>
    if eng.test re lineText then
      let ranges := collectRanges eng re lineText maxMatches
      let pv := buildPreview allLines i b a
      let m : GrepMatch :=
        { line := i + 1
          preview := pv.2.2
          before := pv.1
          matchLine := lineText
          after := pv.2.1
          ranges := if ranges.length ≠ 0 then some ranges else none }
      if found + 1 ≥ maxMatches then [m]
      else m :: grepLoop eng re allLines b a maxMatches (found + 1) rest
    else grepLoop eng re allLines b a maxMatches found rest

/-- `grepLike`: escape the pattern unless it is a regex, compile it
case-(in)sensitively, return no matches on empty input or compile failure,
otherwise run the line-matching loop. -/
def grepLike {R : Type} (eng : RegexEngine R) (text pattern : String)
    (opts : GrepOpts) : List GrepMatch :=
  if text = "" ∨ pattern = "" then []
  else
    let lines := splitLines text
    let flags := if opts.caseSensitive then "g" else "gi"
    match eng.compile (if opts.isRegex then pattern else escapeRegex pattern) flags with
    | none => []
    | some re =>
      let b := opts.before.getD opts.context
      let a := opts.after.getD opts.context
      grepLoop eng re lines b a opts.maxMatches 0 lines.enum

/-- The processing options consumed by the fetch pipeline, with the source
defaults. -/
structure ProcOptions where
  process : Bool := true
  summarize : Bool := true
  summaryMaxSentences : Nat := 3
  summaryMaxChars : Nat := 500
  search : Option String := none
  searchIsRegex : Bool := false
  caseSensitive : Bool := false
  context : Nat := 2
  before : Option Nat := none
  after : Option Nat := none
  maxMatches : Nat := 20
  includeRawPreview : Bool := false
  rawPreviewSize : Nat := 1024
deriving DecidableEq

/-- JS truthiness of an optional string (absent or empty is falsy). -/
def truthyStr (s : Option String) : Bool :=
  match s with
  | none => false
  | some s => s ≠ ""

/-- The processed / summary / matches / raw-preview fields computed by the
content pipeline, shared verbatim by `fetchAndCache` and `getProcessedView`. -/
structure PipelineView where
  processed : Bool
  textSize : Option Nat
  textSlice : String
  isComplete : Bool
  summary : Option String
  matchResults : Option (List GrepMatch)
  rawPreview : Option String
deriving DecidableEq

/-- The content-processing pipeline over a stored buffer. -/
def runPipeline {R : Type} (ext : Externals) (eng : RegexEngine R) (data : Buf)
    (contentType : Option String) (outputSize : Nat) (o : ProcOptions) : PipelineView :=
  let kind := detectKind contentType
  let processedText := if o.process then toText ext data kind else ""
  let processed := if o.process then decide (processedText.length > 0) else false
  let textSize := if processed then some processedText.length else none
  let textSlice := if processed then String.mk (processedText.data.take outputSize) else ""
  let isComplete := if processed then decide (textSlice.length = processedText.length) else true
  let summary :=
    if processed ∧ o.summarize then
      some (summarizeText processedText o.summaryMaxSentences o.summaryMaxChars)
    else none
  let matchResults :=
    if processed ∧ truthyStr o.search then
      some (grepLike eng processedText (o.search.getD "")
        { isRegex := o.searchIsRegex
          caseSensitive := o.caseSensitive
          before := o.before
          after := o.after
          context := o.context
          maxMatches := o.maxMatches })
    else none
  let rawPreview :=
    if o.includeRawPreview then some (ext.utf8Decode (data.take o.rawPreviewSize)) else none
  { processed := processed
    textSize := textSize
    textSlice := textSlice
    isComplete := isComplete
    summary := summary
    matchResults := matchResults
    rawPreview := rawPreview }

/-- The `FetchResult` view returned by `fetchAndCache` and `getProcessedView`. -/
structure FetchResult where
  requestId : String
  status : Nat
  statusText : String
  contentType : Option String := none
  contentSize : Option Nat := none
  actualSize : Nat
  processed : Bool
  textSize : Option Nat := none
  data : String
  summary : Option String := none
  matchResults : Option (List GrepMatch) := none
  rawPreview : Option String := none
  isComplete : Bool
  responseHeaders : Option Headers := none
  error : Option String := none
  errorCode : Option String := none
deriving DecidableEq

/-- The successful `fetchAndCache` result: pipeline output plus response
metadata, `contentSize` taken from the `Content-Length` header, and the
host-mismatch warning appended to `statusText` when there is no error. -/
def mkFetchResult {R : Type} (ext : Externals) (eng : RegexEngine R) (requestId : String)
    (httpStatus : Nat) (statusText : String) (contentType : Option String)
    (expectedSize : Option Nat) (fetchedSize : Nat) (allData : Buf) (outputSize : Nat)
    (o : ProcOptions) (includeResponseHeaders : Bool) (responseHeaders : Option Headers)
    (hostMismatchWarning : Option String) : FetchResult :=
  let pv := runPipeline ext eng allData contentType outputSize o
  let cErr := computedError httpStatus statusText
  let result : FetchResult :=
    { requestId := requestId
      status := httpStatus
      statusText := statusText
      contentType := contentType
      contentSize := expectedSize
      actualSize := fetchedSize
      processed := pv.processed
      textSize := pv.textSize
      data := pv.textSlice
      summary := pv.summary
      matchResults := pv.matchResults
      rawPreview := pv.rawPreview
      isComplete := pv.isComplete
      responseHeaders := if includeResponseHeaders then responseHeaders else none
      error := cErr }
  if cErr = none ∧ hostMismatchWarning ≠ none then
    { result with statusText := statusText ++ " (warning: host mismatch)" }
  else result

/-- The pure body of `getProcessedView` over a cache record: re-run the
pipeline over the stored buffer; `contentSize` is the stored length and
`statusText` the stored status text. -/
def getProcessedViewOf {R : Type} (ext : Externals) (eng : RegexEngine R)
    (cache : FetchCache) (outputSize : Nat) (o : ProcOptions) : FetchResult :=
  let pv := runPipeline ext eng cache.data cache.contentType outputSize o
  { requestId := cache.requestId
    status := cache.httpStatus.getD 0
    statusText := cache.statusText.getD ""
    contentType := cache.contentType
    contentSize := some cache.data.length
    actualSize := cache.fetchedSize
    processed := pv.processed
    textSize := pv.textSize
    data := pv.textSlice
    summary := pv.summary
    matchResults := pv.matchResults
    rawPreview := pv.rawPreview
    isComplete := pv.isComplete
    responseHeaders := none
    error := cache.error
    errorCode := cache.errorCode }

/-- `getProcessedView`: resolve the record through `getByRequestId`
(lazy expiry included) and build the processed view. -/
def getProcessedView {R : Type} (ext : Externals) (eng : RegexEngine R) (now : Nat)
    (st : FetchStore) (requestId : String) (outputSize : Nat) (o : ProcOptions) :
    Option FetchResult × FetchStore :=
  match getByRequestId now st requestId with
  | (none, st') => (none, st')
  | (some cache, st') => (some (getProcessedViewOf ext eng cache outputSize o), st')

/-- The Unicode replacement character emitted for invalid UTF-8 input. -/
def replacementChar : Char := Char.ofNat 0xFFFD

/-- An in-flight multi-byte UTF-8 sequence: accumulated bits, continuation
bytes still needed, and the admissible range of the next byte (only the
first continuation byte is range-restricted). -/
structure Utf8Pending where
  acc : Nat
  need : Nat
  lower : Nat
  upper : Nat
deriving DecidableEq

/-- Classify a byte as the start of a sequence: ASCII output, the pending
state of a 2/3/4-byte lead (`E0`/`ED`/`F0`/`F4` carry the WHATWG bounds
that exclude overlongs and surrogates), or U+FFFD for an invalid lead. -/
def utf8Lead (b : Nat) : List Char × Option Utf8Pending :=
  if b < 0x80 then ([Char.ofNat b], none)
  else if 0xC2 ≤ b ∧ b ≤ 0xDF then ([], some ⟨b - 0xC0, 1, 0x80, 0xBF⟩)
  else if 0xE0 ≤ b ∧ b ≤ 0xEF then
    ([], some ⟨b - 0xE0, 2, if b = 0xE0 then 0xA0 else 0x80, if b = 0xED then 0x9F else 0xBF⟩)
  else if 0xF0 ≤ b ∧ b ≤ 0xF4 then
    ([], some ⟨b - 0xF0, 3, if b = 0xF0 then 0x90 else 0x80, if b = 0xF4 then 0x8F else 0xBF⟩)
  else ([replacementChar], none)

/-- The decoding loop: feed bytes into the pending sequence, emitting
U+FFFD for every maximal invalid subpart and restarting at the byte that
broke the sequence. -/
def utf8DecodeLoop (pending : Option Utf8Pending) : Buf → List Char
  | [] =>
    match pending with
    | none => []
    | some _ => [replacementChar]
  | b :: rest =>
    match pending with
    | none =>
      (utf8Lead b).1 ++ utf8DecodeLoop (utf8Lead b).2 rest
    | some p =>
      if p.lower ≤ b ∧ b ≤ p.upper then
        if p.need = 1 then
          Char.ofNat (p.acc * 0x40 + (b - 0x80)) :: utf8DecodeLoop none rest
        else
          utf8DecodeLoop (some ⟨p.acc * 0x40 + (b - 0x80), p.need - 1, 0x80, 0xBF⟩) rest
      else
        (replacementChar :: (utf8Lead b).1) ++ utf8DecodeLoop (utf8Lead b).2 rest

/-- The host `Buffer.toString('utf-8')` decoding: UTF-8 with U+FFFD
substitution for invalid input. -/
def utf8DecodeReplace (l : Buf) : List Char :=
  utf8DecodeLoop none l

/-- The payload returned by `getFetchData` (the raw byte-range view); the
`data` field is the UTF-8 decode of the sliced chunk, as returned by the
source. -/
structure FetchDataPayload where
  requestId : String
  url : String
  httpStatus : Option Nat
  contentSize : Nat
  startPosition : Nat
  dataSize : Nat
  data : String
  hasMore : Bool
  responseHeaders : Option Headers
  metaMethod : String
  metaTimestamp : Nat
  metaStatus : FetchStatus
  metaError : Option String
deriving DecidableEq

/-- The `dataChunk` local of `getFetchData`: clamp the end to the total
length and slice the stored buffer. -/
def rawDataChunk (cache : FetchCache) (startPosition size : Nat) : Buf :=
  let totalSize := cache.data.length
  let endPosition := min (startPosition + size) totalSize
  (cache.data.take endPosition).drop startPosition

/-- The payload built by `getFetchData`: the sliced chunk's byte length as
`dataSize` and its UTF-8 decode as `data`. -/
def mkFetchDataPayload (cache : FetchCache) (includeHeaders : Bool)
    (startPosition size : Nat) : FetchDataPayload :=
  let totalSize := cache.data.length
  let endPosition := min (startPosition + size) totalSize
  let dataChunk := rawDataChunk cache startPosition size
  { requestId := cache.requestId
    url := cache.url
    httpStatus := cache.httpStatus
    contentSize := totalSize
    startPosition := startPosition
    dataSize := dataChunk.length
    data := String.mk (utf8DecodeReplace dataChunk)
    hasMore := decide (endPosition < totalSize)
    responseHeaders := if includeHeaders then cache.responseHeaders else none
    metaMethod := cache.method
    metaTimestamp := cache.timestamp
    metaStatus := cache.status
    metaError := cache.error }

/-- `getFetchData`: resolve through `getByRequestId`, then slice. -/
def getFetchData (now : Nat) (st : FetchStore) (requestId : String)
    (includeHeaders : Bool) (startPosition size : Nat) :
    Option FetchDataPayload × FetchStore :=
  match getByRequestId now st requestId with
  | (none, st') => (none, st')
  | (some cache, st') => (some (mkFetchDataPayload cache includeHeaders startPosition size), st')

/-- A value thrown by the host `fetch`: either a string or an error object
with the fields inspected by the catch branch. -/
inductive ThrownValue
| strVal (s : String)
| errVal (name message code errno causeMessage causeCode causeErrno : Option String)
deriving DecidableEq

/-- Whether the thrown value is an `AbortError` (the timeout path). -/
def isAbortError : ThrownValue → Bool
  | .strVal _ => false
  | .errVal name _ _ _ _ _ _ => name = some "AbortError"

/-- JS `a || b` over optional strings (empty strings are falsy). -/
def jsOr (a b : Option String) : Option String :=
  if truthyStr a then a else b

/-- The error message derivation of the catch branch. -/
def errMsgOf (timeout : Nat) (e : ThrownValue) : String :=
  if isAbortError e then "Fetch aborted by timeout after " ++ toString timeout ++ " ms"
  else
    match e with
    | .strVal s => s
    | .errVal _ message _ _ causeMessage _ _ =>
      if truthyStr message then message.getD ""
      else if truthyStr causeMessage then causeMessage.getD ""
      else "Unknown fetch error"

/-- The error code extraction of the catch branch, in source precedence:
timeout code, the error's own `code`/`errno`, then the nested cause's. -/
def errCodeOf (e : ThrownValue) : Option String :=
  if isAbortError e then some "ETIMEDOUT"
  else
    match e with
    | .strVal _ => none
    | .errVal _ _ code errno _ causeCode causeErrno =>
      jsOr code (jsOr errno (jsOr causeCode causeErrno))

/-- The cache entry written by the catch branch: `Error` status, the derived
message and code, and an empty data buffer. -/
def mkErrorEntry (cacheEntry : FetchCache) (timeout : Nat) (e : ThrownValue) : FetchCache :=
  { cacheEntry with
    status := .error
    error := some (errMsgOf timeout e)
    errorCode := errCodeOf e
    data := [] }

/-- The `FetchResult` returned by the catch branch. -/
def mkErrorResult (requestId : String) (timeout : Nat) (e : ThrownValue) : FetchResult :=
  { requestId := requestId
    status := 0
    statusText := "Error"
    actualSize := 0
    data := ""
    processed := false
    isComplete := true
    error := some (errMsgOf timeout e)
    errorCode := errCodeOf e }

/-- One row of the `listFetchHistory` listing. -/
structure FetchHistoryEntry where
  requestId : String
  url : String
  method : String
  status : FetchStatus
  httpStatus : Option Nat
  expectedSize : Option Nat
  fetchedSize : Nat
  timestamp : Nat
  expiresAt : Nat
deriving DecidableEq

/-- The paged listing shape shared by both history listings. -/
structure HistoryPage (α : Type) where
  rows : List α
  totalCount : Nat
  currentPage : Nat
  totalPages : Nat
  hasNextPage : Bool
  hasPreviousPage : Bool
deriving DecidableEq

/-- `listFetchHistory`: collect the non-expired records (optionally only the
requested id), sort by timestamp descending, and paginate. -/
def listFetchHistory (now : Nat) (st : FetchStore) (requestId : Option String)
    (page limit : Nat) : HistoryPage FetchHistoryEntry :=
  let history := (st.cache.filter
      (fun p => ¬ isExpired now p.2.expiresAt ∧ (requestId = none ∨ requestId = some p.1))).map
    (fun p =>
      ({ requestId := p.2.requestId
         url := p.2.url
         method := p.2.method
         status := p.2.status
         httpStatus := p.2.httpStatus
         expectedSize := p.2.expectedSize
         fetchedSize := p.2.fetchedSize
         timestamp := p.2.timestamp
         expiresAt := p.2.expiresAt } : FetchHistoryEntry))
  let sorted := history.mergeSort (fun a b => b.timestamp ≤ a.timestamp)
  let totalCount := sorted.length
  let totalPages := (totalCount + limit - 1) / limit
  let startIndex := (page - 1) * limit
  let endIndex := startIndex + limit
  { rows := (sorted.take endIndex).drop startIndex
    totalCount := totalCount
    currentPage := page
    totalPages := totalPages
    hasNextPage := decide (page < totalPages)
    hasPreviousPage := decide (page > 1) }

/-- The full success-path transition of `fetchAndCache`: insert the initial
entry, stream and truncate the body, enforce the byte budget, finalize the
record, apply the count cap, and build the returned view. -/
def fetchAndCacheSuccess {R : Type} (ext : Externals) (eng : RegexEngine R)
    (maxFileSize maxTotalCacheSize maxCacheSize : Nat) (st : FetchStore)
    (requestId url method : String) (headers : Option Headers) (timestamp : Nat)
    (httpStatus : Nat) (statusText : String) (contentType : Option String)
    (expectedSize : Option Nat) (includeResponseHeaders : Bool) (allHeaders : Headers)
    (hostMismatchWarning : Option String) (chunks : List Buf) (outputSize : Nat)
    (o : ProcOptions) : FetchResult × FetchStore :=
  let expiresAt := timestamp + 3600000
  let entry0 := initialEntry requestId url method headers timestamp expiresAt
  let responseHeaders := if includeResponseHeaders then some allHeaders else none
  let allData := allDataOf maxFileSize chunks
  let fetchedSize := fetchedSizeOf maxFileSize chunks
  let finalEntry := mkFinalEntry entry0 httpStatus statusText contentType expectedSize
    responseHeaders allData fetchedSize
  let st' := fetchInsert maxTotalCacheSize maxCacheSize st requestId entry0 finalEntry fetchedSize
  (mkFetchResult ext eng requestId httpStatus statusText contentType expectedSize fetchedSize
    allData outputSize o includeResponseHeaders responseHeaders hostMismatchWarning, st')

/-- A raw search item handed to the search cache (the fields it reads). -/
structure GoogleItem where
  title : Option String := none
  link : Option String := none
  snippet : Option String := none
  displayLink : Option String := none
  htmlTitle : Option String := none
  htmlSnippet : Option String := none
deriving DecidableEq

/-- A stored search result entry (full snippet retained). -/
structure SearchResult where
  resultId : String
  title : String
  link : String
  snippet : String
  displayLink : Option String := none
  htmlTitle : Option String := none
  htmlSnippet : Option String := none
  rawData : GoogleItem
deriving DecidableEq

/-- A stored search cache record. -/
structure SearchCache where
  searchId : String
  query : String
  results : List SearchResult
  timestamp : Nat
  expiresAt : Nat
deriving DecidableEq

/-- The summary row of a stored search result (truncated snippet). -/
structure SearchResultSummary where
  resultId : String
  title : String
  link : String
  snippet : String
deriving DecidableEq

/-- The response of `store`. -/
structure SearchResponse where
  searchId : String
  resultCount : Nat
  timestamp : Nat
  expiresAt : Nat
  results : List SearchResultSummary
deriving DecidableEq

/-- The private state of the search cache manager: record map, the
result-id secondary index, and the LRU access order. -/
structure SearchStore where
  cache : List (String × SearchCache)
  resultIndex : List (String × String)
  accessOrder : List String
deriving DecidableEq

/-- The stored entries built by `store`, one per item with a fresh result
id; missing fields default to empty strings. -/
def builtResults (mkResultId : Nat → String) (items : List GoogleItem) : List SearchResult :=
  items.enum.map (fun p =>
    { resultId := mkResultId p.1
      title := p.2.title.getD ""
      link := p.2.link.getD ""
      snippet := p.2.snippet.getD ""
      displayLink := p.2.displayLink
      htmlTitle := p.2.htmlTitle
      htmlSnippet := p.2.htmlSnippet
      rawData := p.2 })

/-- The snippet shown in the response summary: the first 100 characters,
with an ellipsis marker appended when the original is longer. -/
def summarySnippet (snippet : String) : String :=
  String.mk (snippet.data.take 100) ++ (if snippet.length > 100 then "..." else "")

/-- The count-cap eviction loop of the search store. -/
def searchEvictLoop (maxCacheSize : Nat) (cache : List (String × SearchCache))
    (resultIndex : List (String × String)) :
    List String → List (String × SearchCache) × List (String × String) × List String
  | [] => (cache, resultIndex, [])
  | oldest :: rest =>
    if cache.length > maxCacheSize then
      match mapGet oldest cache with
      | some c =>
        searchEvictLoop maxCacheSize (mapDelete oldest cache)
          (c.results.foldl (fun idx r => mapDelete r.resultId idx) resultIndex)
          (rest.erase oldest)
      | none => searchEvictLoop maxCacheSize cache resultIndex (rest.erase oldest)
    else (cache, resultIndex, oldest :: rest)
termination_by order => order.length
decreasing_by
  · exact Nat.lt_succ_of_le (List.length_erase_le oldest rest)
  · exact Nat.lt_succ_of_le (List.length_erase_le oldest rest)

/-- `store`: build the record, register the secondary index entries, insert,
apply the count cap, and return the summary response. -/
def storeSearch (mkResultId : Nat → String) (searchId : String) (query : String)
    (items : List GoogleItem) (now : Nat) (st : SearchStore) :
    SearchResponse × SearchStore :=
  let timestamp := now
  let expiresAt := timestamp + 3600000
  let results := builtResults mkResultId items
  let resultIndex := results.foldl (fun idx r => mapSet r.resultId searchId idx) st.resultIndex
  let searchCache : SearchCache :=
    { searchId := searchId
      query := query
      results := results
      timestamp := timestamp
      expiresAt := expiresAt }
  let cache := mapSet searchId searchCache st.cache
  let accessOrder := updateAccessOrder searchId st.accessOrder
  let st1 : SearchStore :=
    if cache.length > 1000 then
      let r := searchEvictLoop 1000 cache resultIndex accessOrder
      { cache := r.1, resultIndex := r.2.1, accessOrder := r.2.2 }
    else { cache := cache, resultIndex := resultIndex, accessOrder := accessOrder }
  let response : SearchResponse :=
    { searchId := searchId
      resultCount := results.length
      timestamp := timestamp
      expiresAt := expiresAt
      results := results.map (fun r =>
        { resultId := r.resultId
          title := r.title
          link := r.link
          snippet := summarySnippet r.snippet }) }
  (response, st1)

/-- `removeCache` of the search store: drop the record, its secondary-index
entries and its access-order slot, as one step. -/
def removeSearchCache (st : SearchStore) (searchId : String) : SearchStore :=
  match mapGet searchId st.cache with
  | none => st
  | some c =>
    { cache := mapDelete searchId st.cache
      resultIndex := c.results.foldl (fun idx r => mapDelete r.resultId idx) st.resultIndex
      accessOrder := st.accessOrder.erase searchId }

/-- `getBySearchId`: miss on unknown id; lazily delete and miss on an
expired record; touch the access order on a hit. -/
def getBySearchId (now : Nat) (st : SearchStore) (searchId : String) :
    Option SearchCache × SearchStore :=
  match mapGet searchId st.cache with
  | none => (none, st)
  | some cache =>
    if isExpired now cache.expiresAt then (none, removeSearchCache st searchId)
    else (some cache, { st with accessOrder := updateAccessOrder searchId st.accessOrder })

/-- `getByResultId`: resolve through the secondary index and
`getBySearchId`; a dangling index entry is deleted on the way. -/
def getByResultId (now : Nat) (st : SearchStore) (resultId : String) :
    Option SearchResult × SearchStore :=
  match mapGet resultId st.resultIndex with
  | none => (none, st)
  | some searchId =>
    match getBySearchId now st searchId with
    | (none, st') => (none, { st' with resultIndex := mapDelete resultId st'.resultIndex })
    | (some cache, st') =>
      match cache.results.find? (fun r => r.resultId = resultId) with
      | none => (none, { st' with resultIndex := mapDelete resultId st'.resultIndex })
      | some r => (some r, st')

/-- One row of the `listSearchHistory` listing. -/
structure SearchHistoryEntry where
  searchId : String
  query : String
  timestamp : Nat
  resultCount : Nat
  expiresAt : Nat
deriving DecidableEq

/-- Case-insensitive substring filter on queries. -/
def queryMatches (keyword : String) (query : String) : Bool :=
  decide (keyword.toLower.data <:+: query.toLower.data)

/-- `listSearchHistory`: collect the non-expired records, sort by timestamp
descending, filter by keyword, and paginate. -/
def listSearchHistory (now : Nat) (st : SearchStore) (keyword : Option String)
    (page limit : Nat) : HistoryPage SearchHistoryEntry :=
  let allHistory := (st.cache.filter (fun p => ¬ isExpired now p.2.expiresAt)).map
    (fun p =>
      ({ searchId := p.2.searchId
         query := p.2.query
         timestamp := p.2.timestamp
         resultCount := p.2.results.length
         expiresAt := p.2.expiresAt } : SearchHistoryEntry))
  let sorted := allHistory.mergeSort (fun a b => b.timestamp ≤ a.timestamp)
  let filtered :=
    match keyword with
    | none => sorted
    | some kw => if kw = "" then sorted else sorted.filter (fun e => queryMatches kw e.query)
  let totalCount := filtered.length
  let totalPages := (totalCount + limit - 1) / limit
  let startIndex := (page - 1) * limit
  let endIndex := startIndex + limit
  { rows := (filtered.take endIndex).drop startIndex
    totalCount := totalCount
    currentPage := page
    totalPages := totalPages
    hasNextPage := decide (page < totalPages)
    hasPreviousPage := decide (page > 1) }

theorem readChunks_join (maxFileSize : Nat) :
    ∀ (chunks : List Buf) (fetchedSize : Nat), fetchedSize ≤ maxFileSize →
      (readChunks maxFileSize fetchedSize chunks).flatten =
        chunks.flatten.take (maxFileSize - fetchedSize) := by
  intro chunks
  induction chunks with
  | nil => intro f _; simp [readChunks]
  | cons value rest ih =>
    intro f hf
    by_cases h : f + value.length > maxFileSize
    · have hlt : maxFileSize - f < value.length := by omega
      simp only [readChunks, if_pos h]
      by_cases hr : maxFileSize - f > 0
      · simp only [if_pos hr, List.flatten, List.flatten_cons,
          List.take_append_eq_append_take]
        have h0 : maxFileSize - f - value.length = 0 := by omega
        simp [h0]
      · have h0 : maxFileSize - f = 0 := by omega
        simp [if_neg hr, h0]
    · push_neg at h
      simp only [readChunks, if_neg (by omega : ¬ f + value.length > maxFileSize)]
      have htake : value.take (maxFileSize - f) = value :=
        List.take_of_length_le (by omega)
      simp only [List.flatten_cons, List.take_append_eq_append_take, htake]
      have harith : maxFileSize - f - value.length = maxFileSize - (f + value.length) := by
        omega
      rw [harith, ih (f + value.length) (by omega)]

theorem allDataOf_eq_take (maxFileSize : Nat) (chunks : List Buf) :
    allDataOf maxFileSize chunks = chunks.flatten.take maxFileSize := by
  have := readChunks_join maxFileSize chunks 0 (Nat.zero_le _)
  simpa [allDataOf] using this

theorem fetchedSizeOf_eq_length (maxFileSize : Nat) (chunks : List Buf) :
    fetchedSizeOf maxFileSize chunks = (allDataOf maxFileSize chunks).length := by
  simp [fetchedSizeOf, allDataOf, List.length_flatten]

theorem fetchedSizeOf_eq_min (maxFileSize : Nat) (chunks : List Buf) :
    fetchedSizeOf maxFileSize chunks = min maxFileSize chunks.flatten.length := by
  rw [fetchedSizeOf_eq_length, allDataOf_eq_take, List.length_take]

/-- Claim C3: every stored buffer holds at most `MAX_FILE_SIZE` bytes; the
stream loop truncates the chunk that would cross the limit and stops there,
so the stored data is exactly the first `min(total, MAX_FILE_SIZE)` bytes of
the stream; a 10 MiB stream under a 4 MiB cap yields `fetchedSize` exactly
`4*1024*1024`; the finalized record still carries the real upstream
`httpStatus`/`statusText`. -/
theorem stream_truncation_cap (maxFileSize : Nat) (chunks : List Buf)
    (cacheEntry : FetchCache) (httpStatus : Nat) (statusText : String)
    (contentType : Option String) (expectedSize : Option Nat)
    (responseHeaders : Option Headers) :
    (allDataOf maxFileSize chunks).length ≤ maxFileSize ∧
    allDataOf maxFileSize chunks = chunks.flatten.take maxFileSize ∧
    fetchedSizeOf maxFileSize chunks = min maxFileSize chunks.flatten.length ∧
    (maxFileSize ≤ chunks.flatten.length → fetchedSizeOf maxFileSize chunks = maxFileSize) ∧
    fetchedSizeOf (4 * 1024 * 1024) [List.replicate (10 * 1024 * 1024) 0] = 4 * 1024 * 1024 ∧
    (mkFinalEntry cacheEntry httpStatus statusText contentType expectedSize responseHeaders
      (allDataOf maxFileSize chunks) (fetchedSizeOf maxFileSize chunks)).httpStatus
        = some httpStatus ∧
    (mkFinalEntry cacheEntry httpStatus statusText contentType expectedSize responseHeaders
      (allDataOf maxFileSize chunks) (fetchedSizeOf maxFileSize chunks)).statusText
        = some statusText := by
  refine ⟨?_, allDataOf_eq_take maxFileSize chunks, fetchedSizeOf_eq_min maxFileSize chunks,
    ?_, ?_, rfl, rfl⟩
  · rw [allDataOf_eq_take, List.length_take]
    exact Nat.min_le_left _ _
  · intro h
    rw [fetchedSizeOf_eq_min]
    omega
  · rw [fetchedSizeOf_eq_min]
    rw [List.flatten_cons, List.flatten_nil, List.append_nil, List.length_replicate]
    omega

/-- Witness for C3 at a concrete stream: a 3-byte stream under a 2-byte cap
stores exactly 2 bytes. -/
theorem stream_truncation_cap_witness :
    2 ≤ ([[7, 7, 7]] : List Buf).flatten.length ∧ fetchedSizeOf 2 [[7, 7, 7]] = 2 :=
  ⟨by decide,
    (stream_truncation_cap 2 [[7, 7, 7]]
      (initialEntry "r1" "https://example.com" "GET" none 0 3600000)
      200 "OK" none none none).2.2.2.1 (by decide)⟩

/-- Claim C5 counterexample: a 304 response is finalized as `Error` but with
no synthesized error message, contradicting the claim that every
non-`[200,300)` status carries `HTTP <code>: <statusText>`. -/
theorem terminal_status_counterexample :
    (mkFinalEntry (initialEntry "r1" "https://example.com" "GET" none 0 3600000) 304
      "Not Modified" none none none [] 0).status = FetchStatus.error ∧
    (mkFinalEntry (initialEntry "r1" "https://example.com" "GET" none 0 3600000) 304
      "Not Modified" none none none [] 0).error = none := by
  exact ⟨rfl, rfl⟩

/-- Claim C5 (amended): the terminal status is `Completed` exactly when
`httpStatus ∈ [200,300)` and `Error` otherwise, while the synthesized
message `HTTP <code>: <statusText>` is attached exactly when
`httpStatus ≥ 400`; statuses below 200 or in `[300,400)` yield `Error` with
no message. -/
theorem terminal_status_classification (cacheEntry : FetchCache) (httpStatus : Nat)
    (statusText : String) (contentType : Option String) (expectedSize : Option Nat)
    (responseHeaders : Option Headers) (allData : Buf) (fetchedSize : Nat) :
    ((mkFinalEntry cacheEntry httpStatus statusText contentType expectedSize responseHeaders
        allData fetchedSize).status = FetchStatus.completed ↔
      200 ≤ httpStatus ∧ httpStatus < 300) ∧
    ((mkFinalEntry cacheEntry httpStatus statusText contentType expectedSize responseHeaders
        allData fetchedSize).status = FetchStatus.error ↔
      (httpStatus < 200 ∨ 300 ≤ httpStatus)) ∧
    (mkFinalEntry cacheEntry httpStatus statusText contentType expectedSize responseHeaders
        allData fetchedSize).error =
      (if 400 ≤ httpStatus then some ("HTTP " ++ toString httpStatus ++ ": " ++ statusText)
       else none) := by
  unfold mkFinalEntry computedError
  refine ⟨?_, ?_, rfl⟩
  · by_cases h : 200 ≤ httpStatus ∧ httpStatus < 300 <;> simp [h]
  · by_cases h : 200 ≤ httpStatus ∧ httpStatus < 300 <;> simp [h] <;> omega

/-- Claim C9: when the fetch throws (network failure, abort, timeout), the
record is finalized as `Error` with an empty data buffer regardless of what
was streamed, and the returned result has status 0, `actualSize` 0, empty
`data` and `isComplete` true. -/
theorem error_branch_discards_data (cacheEntry : FetchCache) (requestId : String)
    (timeout : Nat) (e : ThrownValue) :
    (mkErrorEntry cacheEntry timeout e).status = FetchStatus.error ∧
    (mkErrorEntry cacheEntry timeout e).data = [] ∧
    (mkErrorEntry cacheEntry timeout e).error = some (errMsgOf timeout e) ∧
    (mkErrorResult requestId timeout e).status = 0 ∧
    (mkErrorResult requestId timeout e).actualSize = 0 ∧
    (mkErrorResult requestId timeout e).data = "" ∧
    (mkErrorResult requestId timeout e).processed = false ∧
    (mkErrorResult requestId timeout e).isComplete = true :=
  ⟨rfl, rfl, rfl, rfl, rfl, rfl, rfl, rfl⟩

theorem rawDataChunk_eq (cache : FetchCache) (startPosition size : Nat) :
    rawDataChunk cache startPosition size = (cache.data.drop startPosition).take size := by
  unfold rawDataChunk
  simp only [List.drop_take]
  rw [List.take_eq_take]
  simp only [List.length_drop]
  omega

theorem mkFetchDataPayload_dataSize (cache : FetchCache) (includeHeaders : Bool)
    (startPosition size : Nat) :
    (mkFetchDataPayload cache includeHeaders startPosition size).dataSize =
      (rawDataChunk cache startPosition size).length := rfl

theorem mkFetchDataPayload_data (cache : FetchCache) (includeHeaders : Bool)
    (startPosition size : Nat) :
    (mkFetchDataPayload cache includeHeaders startPosition size).data =
      String.mk (utf8DecodeReplace (rawDataChunk cache startPosition size)) := rfl

/-- Concatenation of the raw byte slices (the `dataChunk` values of
`getFetchData`) over the contiguous ranges described by a list of sizes,
starting at the given position. -/
def concatRawData (cache : FetchCache) (start : Nat) : List Nat → Buf
  | [] => []
  | n :: rest => rawDataChunk cache start n ++ concatRawData cache (start + n) rest

/-- Concatenation of the `data` strings returned by `getFetchData` over the
same contiguous ranges. -/
def concatRawDataStr (cache : FetchCache) (includeHeaders : Bool) (start : Nat) :
    List Nat → String
  | [] => ""
  | n :: rest =>
    (mkFetchDataPayload cache includeHeaders start n).data ++
      concatRawDataStr cache includeHeaders (start + n) rest

theorem concatRawData_beyond (cache : FetchCache) :
    ∀ (szs : List Nat) (start : Nat), cache.data.length ≤ start →
      concatRawData cache start szs = [] := by
  intro szs
  induction szs with
  | nil => intro start _; rfl
  | cons n rest ih =>
    intro start h
    rw [concatRawData, rawDataChunk_eq, List.drop_eq_nil_of_le h,
      List.take_nil, List.nil_append]
    exact ih (start + n) (by omega)

theorem concatRawData_covers (cache : FetchCache) :
    ∀ (szs : List Nat) (start : Nat), cache.data.length ≤ start + szs.sum →
      concatRawData cache start szs = cache.data.drop start := by
  intro szs
  induction szs with
  | nil =>
    intro start h
    rw [List.sum_nil, Nat.add_zero] at h
    rw [concatRawData, List.drop_eq_nil_of_le h]
  | cons n rest ih =>
    intro start h
    rw [concatRawData, rawDataChunk_eq]
    by_cases hc : cache.data.length ≤ start + n
    · rw [List.take_of_length_le (by simp only [List.length_drop]; omega),
        concatRawData_beyond cache rest (start + n) hc, List.append_nil]
    · rw [ih (start + n) (by rw [List.sum_cons] at h; omega)]
      rw [← List.drop_drop]
      exact List.take_append_drop n (cache.data.drop start)

theorem stringMk_append (a b : List Char) :
    String.mk a ++ String.mk b = String.mk (a ++ b) := rfl

theorem utf8DecodeReplace_ascii :
    ∀ (l : Buf), (∀ b ∈ l, b < 0x80) → utf8DecodeReplace l = l.map Char.ofNat := by
  intro l
  induction l with
  | nil => intro _; rfl
  | cons b rest ih =>
    intro h
    have hb : b < 0x80 := h b (by simp)
    have hlead : utf8Lead b = ([Char.ofNat b], none) := by
      rw [utf8Lead, if_pos hb]
    show utf8DecodeLoop none (b :: rest) = (b :: rest).map Char.ofNat
    rw [utf8DecodeLoop]
    rw [hlead]
    have hrest : utf8DecodeLoop none rest = rest.map Char.ofNat :=
      ih (fun b' hb' => h b' (List.mem_cons_of_mem b hb'))
    rw [hrest, List.map_cons]
    rfl

theorem concatRawDataStr_map (cache : FetchCache) (includeHeaders : Bool)
    (hascii : ∀ b ∈ cache.data, b < 0x80) :
    ∀ (szs : List Nat) (start : Nat),
      concatRawDataStr cache includeHeaders start szs =
        String.mk ((concatRawData cache start szs).map Char.ofNat) := by
  intro szs
  induction szs with
  | nil => intro start; rfl
  | cons n rest ih =>
    intro start
    rw [concatRawDataStr, concatRawData]
    have hchunk : ∀ b ∈ rawDataChunk cache start n, b < 0x80 := by
      intro b hb
      rw [rawDataChunk_eq] at hb
      exact hascii b (List.drop_subset _ _ (List.take_subset _ _ hb))
    rw [mkFetchDataPayload_data, utf8DecodeReplace_ascii _ hchunk, ih (start + n),
      stringMk_append, List.map_append]

/-- A completed record holding a 6000-byte buffer, the setting of the
spec's Scenario D. -/
def rec6000 : FetchCache :=
  mkFinalEntry (initialEntry "r6000" "https://example.com" "GET" none 0 3600000) 200 "OK"
    none none none (List.replicate 6000 0) 6000

/-- A completed record whose two stored bytes encode one two-byte UTF-8
character. -/
def rec2utf : FetchCache :=
  mkFinalEntry (initialEntry "r2" "https://example.com" "GET" none 0 3600000) 200 "OK"
    none none none [0xC3, 0xA9] 2

/-- Claim C7 counterexample: on a record storing the two-byte UTF-8
character U+00E9, reading the two ranges `[0,1)` and `[1,2)` returns two
replacement characters whose concatenation differs from the single
full-range read, so concatenating the `data` fields over contiguous ranges
does not reconstruct the stored buffer when a range boundary splits a
multi-byte sequence. -/
theorem raw_chunk_reconstruction_counterexample :
    (mkFetchDataPayload rec2utf false 0 2).data = "é" ∧
    concatRawDataStr rec2utf false 0 [1, 1] =
      String.mk [replacementChar, replacementChar] ∧
    concatRawDataStr rec2utf false 0 [1, 1] ≠ (mkFetchDataPayload rec2utf false 0 2).data := by
  exact ⟨by decide, by decide, by decide⟩

/-- Claim C7 (amended): concatenating the raw byte slices (the `dataChunk`
values) over contiguous increasing ranges covering the stored buffer
reconstructs it exactly, and the returned `data` strings are the per-chunk
UTF-8 decodes, so their concatenation equals the decode of the whole buffer
whenever no range boundary splits a multi-byte sequence (in particular for
ASCII content); `hasMore` is true exactly when
`min(startPosition+size, totalLength)` is below the total length; on a
6000-byte buffer, `startPosition=4096, size=4096` returns `dataSize=1904`
and `hasMore=false`. -/
theorem raw_chunk_reconstruction :
    (∀ (cache : FetchCache) (szs : List Nat),
      cache.data.length ≤ szs.sum →
        concatRawData cache 0 szs = cache.data) ∧
    (∀ (cache : FetchCache) (includeHeaders : Bool) (szs : List Nat),
      (∀ b ∈ cache.data, b < 0x80) → cache.data.length ≤ szs.sum →
        concatRawDataStr cache includeHeaders 0 szs =
          String.mk (utf8DecodeReplace cache.data)) ∧
    (∀ (cache : FetchCache) (includeHeaders : Bool) (startPosition size : Nat),
      (mkFetchDataPayload cache includeHeaders startPosition size).hasMore = true ↔
        min (startPosition + size) cache.data.length < cache.data.length) ∧
    (mkFetchDataPayload rec6000 false 4096 4096).dataSize = 1904 ∧
    (mkFetchDataPayload rec6000 false 4096 4096).hasMore = false := by
  refine ⟨?_, ?_, ?_, ?_, ?_⟩
  · intro cache szs h
    rw [concatRawData_covers cache szs 0 (by omega), List.drop_zero]
  · intro cache includeHeaders szs hascii h
    rw [concatRawDataStr_map cache includeHeaders hascii szs 0,
      concatRawData_covers cache szs 0 (by omega), List.drop_zero,
      utf8DecodeReplace_ascii _ hascii]
  · intro cache includeHeaders startPosition size
    simp [mkFetchDataPayload]
  · have hlen : rec6000.data.length = 6000 := by
      rw [show rec6000.data = List.replicate 6000 0 from rfl, List.length_replicate]
    simp only [mkFetchDataPayload, rawDataChunk, List.length_drop, List.length_take, hlen]
    omega
  · have hlen : rec6000.data.length = 6000 := by
      rw [show rec6000.data = List.replicate 6000 0 from rfl, List.length_replicate]
    simp only [mkFetchDataPayload, hlen, decide_eq_false_iff_not]
    omega

/-- Witness for C7 at a concrete 3-byte ASCII buffer split into two
ranges: both the byte-slice and the string concatenations reconstruct. -/
theorem raw_chunk_reconstruction_witness :
    (mkFinalEntry (initialEntry "r3" "https://example.com" "GET" none 0 3600000) 200 "OK"
      none none none [65, 66, 67] 3).data.length ≤ ([2, 2] : List Nat).sum ∧
    concatRawData (mkFinalEntry (initialEntry "r3" "https://example.com" "GET" none 0 3600000)
      200 "OK" none none none [65, 66, 67] 3) 0 [2, 2] =
      (mkFinalEntry (initialEntry "r3" "https://example.com" "GET" none 0 3600000) 200 "OK"
        none none none [65, 66, 67] 3).data ∧
    concatRawDataStr (mkFinalEntry
      (initialEntry "r3" "https://example.com" "GET" none 0 3600000) 200 "OK" none none none
      [65, 66, 67] 3) false 0 [2, 2] =
      String.mk (utf8DecodeReplace (mkFinalEntry
        (initialEntry "r3" "https://example.com" "GET" none 0 3600000) 200 "OK" none none none
        [65, 66, 67] 3).data) :=
  ⟨by decide,
    raw_chunk_reconstruction.1 _ [2, 2] (by decide),
    raw_chunk_reconstruction.2.1 _ false [2, 2] (by decide) (by decide)⟩

/-- Claim C10: a read at or past the end of the stored buffer is a
well-formed payload, not an error: the bounds are clamped, `dataSize` is 0,
`data` is empty and `hasMore` is false. -/
theorem raw_range_clamped_beyond_end (now : Nat) (st : FetchStore) (requestId : String)
    (cache : FetchCache) (includeHeaders : Bool) (startPosition size : Nat)
    (hget : mapGet requestId st.cache = some cache)
    (hfresh : ¬ now > cache.expiresAt)
    (hstart : cache.data.length ≤ startPosition) :
    (getFetchData now st requestId includeHeaders startPosition size).1 =
      some (mkFetchDataPayload cache includeHeaders startPosition size) ∧
    (mkFetchDataPayload cache includeHeaders startPosition size).dataSize = 0 ∧
    (mkFetchDataPayload cache includeHeaders startPosition size).data = "" ∧
    (mkFetchDataPayload cache includeHeaders startPosition size).hasMore = false := by
  have hchunk : rawDataChunk cache startPosition size = [] := by
    rw [rawDataChunk_eq, List.drop_eq_nil_of_le hstart, List.take_nil]
  refine ⟨?_, ?_, ?_, ?_⟩
  · rw [getFetchData, getByRequestId, hget]
    simp [isExpired, hfresh]
  · rw [mkFetchDataPayload_dataSize, hchunk]
    rfl
  · rw [mkFetchDataPayload_data, hchunk]
    rfl
  · show decide (min (startPosition + size) cache.data.length < cache.data.length) = false
    simp
    omega

/-- Witness for C10 at a concrete store holding a 3-byte record, read from
position 5. -/
theorem raw_range_clamped_beyond_end_witness :
    mapGet "r3" (FetchStore.mk [("r3", mkFinalEntry
      (initialEntry "r3" "https://example.com" "GET" none 0 3600000) 200 "OK" none none none
      [1, 2, 3] 3)] ["r3"]).cache = some (mkFinalEntry
      (initialEntry "r3" "https://example.com" "GET" none 0 3600000) 200 "OK" none none none
      [1, 2, 3] 3) ∧
    (getFetchData 10 (FetchStore.mk [("r3", mkFinalEntry
      (initialEntry "r3" "https://example.com" "GET" none 0 3600000) 200 "OK" none none none
      [1, 2, 3] 3)] ["r3"]) "r3" false 5 4).1 =
      some (mkFetchDataPayload (mkFinalEntry
        (initialEntry "r3" "https://example.com" "GET" none 0 3600000) 200 "OK" none none none
        [1, 2, 3] 3) false 5 4) :=
  ⟨by decide,
    (raw_range_clamped_beyond_end 10 _ "r3" _ false 5 4 (by decide) (by decide) (by decide)).1⟩

theorem stringMk_length (l : List Char) : (String.mk l).length = l.length := rfl

theorem summarySnippet_length_le (s : String) : (summarySnippet s).length ≤ 103 := by
  unfold summarySnippet
  by_cases h : s.length > 100
  · rw [if_pos h, String.length_append, stringMk_length, List.length_take,
      show ("..." : String).length = 3 from rfl]
    omega
  · rw [if_neg h, String.length_append, stringMk_length, List.length_take,
      show ("" : String).length = 0 from rfl]
    omega

/-- Claim C6 counterexample: storing one item whose snippet has 101
characters yields a summary snippet of 103 characters (100 kept plus the
three-character ellipsis marker), contradicting the claimed 100-character
bound on returned snippets. -/
theorem snippet_truncation_counterexample :
    ((storeSearch (fun _ => "rid0") "s1" "cats"
        [{ snippet := some (String.mk (List.replicate 101 'a')) }] 0
        (SearchStore.mk [] [] [])).1.results.map (fun r => r.snippet.length)) = [103] ∧
    ¬ (103 ≤ 100) := by
  exact ⟨by decide, by decide⟩

/-- Claim C6 (amended): `resultCount` equals the number of items; each
returned summary snippet is the first 100 characters of the stored snippet
with `...` appended when the original exceeds 100 characters, so its length
is at most 103 (not 100); the internally stored entries retain the full
snippets. -/
theorem snippet_truncation_amended (mkResultId : Nat → String) (searchId query : String)
    (items : List GoogleItem) (now : Nat) (st : SearchStore) :
    (storeSearch mkResultId searchId query items now st).1.resultCount = items.length ∧
    (storeSearch mkResultId searchId query items now st).1.results =
      (builtResults mkResultId items).map (fun r =>
        { resultId := r.resultId
          title := r.title
          link := r.link
          snippet := summarySnippet r.snippet }) ∧
    (∀ r ∈ (storeSearch mkResultId searchId query items now st).1.results,
      r.snippet.length ≤ 103) ∧
    (builtResults mkResultId items).map (fun r => r.snippet) =
      items.map (fun it => it.snippet.getD "") := by
  refine ⟨?_, rfl, ?_, ?_⟩
  · show (builtResults mkResultId items).length = items.length
    simp [builtResults]
  · intro r hr
    show r.snippet.length ≤ 103
    simp only [storeSearch, List.mem_map] at hr
    obtain ⟨r', _, hr'⟩ := hr
    rw [← hr']
    exact summarySnippet_length_le r'.snippet
  · unfold builtResults
    rw [List.map_map]
    have : ((fun r : SearchResult => r.snippet) ∘ fun p : Nat × GoogleItem =>
        ({ resultId := mkResultId p.1
           title := p.2.title.getD ""
           link := p.2.link.getD ""
           snippet := p.2.snippet.getD ""
           displayLink := p.2.displayLink
           htmlTitle := p.2.htmlTitle
           htmlSnippet := p.2.htmlSnippet
           rawData := p.2 } : SearchResult)) =
        (fun it : GoogleItem => it.snippet.getD "") ∘ Prod.snd := rfl
    rw [this, ← List.map_map, List.enum_map_snd]

/-- Witness for C6 (amended) at a single stored item. -/
theorem snippet_truncation_amended_witness :
    (storeSearch (fun _ => "rid0") "s1" "cats" [{ snippet := some "hello" }] 0
      (SearchStore.mk [] [] [])).1.resultCount = [({ snippet := some "hello" } : GoogleItem)].length :=
  (snippet_truncation_amended (fun _ => "rid0") "s1" "cats" [{ snippet := some "hello" }] 0
    (SearchStore.mk [] [] [])).1

theorem escapeRegex_eq_empty_iff (s : String) : escapeRegex s = "" ↔ s = "" := by
  constructor
  · intro h
    have hd : s.data.flatMap
        (fun c => if c ∈ regexMetaChars then ['\\', c] else [c]) = [] := by
      have := congrArg String.data h
      simpa [escapeRegex] using this
    rw [List.bind_eq_nil] at hd
    cases s with
    | mk data =>
      cases data with
      | nil => rfl
      | cons c cs =>
        exfalso
        have := hd c (List.mem_cons_self c cs)
        by_cases hc : c ∈ regexMetaChars
        · rw [if_pos hc] at this
          exact List.noConfusion this
        · rw [if_neg hc] at this
          exact List.noConfusion this
  · intro h
    rw [h]
    rfl

/-- Claim C8: `grepLike` is total and never raises; with `isRegex` false it
escapes the pattern's metacharacters before compilation (so it behaves as
the regex search on the escaped pattern), and whenever compilation of the
effective pattern fails it returns the empty match list. -/
theorem grep_never_raises {R : Type} (eng : RegexEngine R) (text pattern : String)
    (opts : GrepOpts) :
    (opts.isRegex = false →
      grepLike eng text pattern opts =
        grepLike eng text (escapeRegex pattern) { opts with isRegex := true }) ∧
    (eng.compile (if opts.isRegex then pattern else escapeRegex pattern)
        (if opts.caseSensitive then "g" else "gi") = none →
      grepLike eng text pattern opts = []) := by
  constructor
  · intro h
    unfold grepLike
    by_cases ht : text = ""
    · simp [ht]
    · by_cases hp : pattern = ""
      · simp [ht, hp, escapeRegex_eq_empty_iff]
      · have hep : ¬ escapeRegex pattern = "" := by
          rw [escapeRegex_eq_empty_iff]; exact hp
        simp [ht, hp, hep, h]
  · intro hc
    unfold grepLike
    by_cases ht : text = ""
    · simp [ht]
    · by_cases hp : pattern = ""
      · simp [ht, hp]
      · simp only [ht, hp, or_self, if_false]
        rw [hc]

/-- A regex engine whose compilation always fails, for the C8 witness. -/
def failEngine : RegexEngine Unit :=
  { compile := fun _ _ => none
    test := fun _ _ => false
    execRanges := fun _ _ => [] }

/-- Witness for C8: a concrete invalid pattern under the failing engine
yields no matches, and the non-regex call equals the escaped-regex call. -/
theorem grep_never_raises_witness :
    grepLike failEngine "line one" "a(" {} = [] ∧
    grepLike failEngine "line one" "a(" {} =
      grepLike failEngine "line one" (escapeRegex "a(")
        { ({} : GrepOpts) with isRegex := true } :=
  ⟨(grep_never_raises failEngine "line one" "a(" {}).2 rfl,
    (grep_never_raises failEngine "line one" "a(" {}).1 rfl⟩

theorem mapGet_mapSet_self {α : Type} (k : String) (v : α) (m : List (String × α)) :
    mapGet k (mapSet k v m) = some v := by
  induction m with
  | nil => simp [mapSet, mapGet]
  | cons p rest ih =>
    by_cases h : p.1 = k
    · simp [mapSet, mapGet, h]
    · simpa [mapSet, mapGet, h] using ih

theorem mapSet_of_fresh {α : Type} (k : String) (v : α) (m : List (String × α))
    (h : mapGet k m = none) : mapSet k v m = m ++ [(k, v)] := by
  induction m with
  | nil => rfl
  | cons p rest ih =>
    by_cases hp : p.1 = k
    · rw [mapGet, if_pos hp] at h
      exact Option.noConfusion h
    · rw [mapGet, if_neg hp] at h
      simp [mapSet, hp, ih h]

theorem mapDelete_of_none {α : Type} (k : String) (m : List (String × α))
    (h : mapGet k m = none) : mapDelete k m = m := by
  induction m with
  | nil => rfl
  | cons p rest ih =>
    by_cases hp : p.1 = k
    · rw [mapGet, if_pos hp] at h
      exact Option.noConfusion h
    · rw [mapGet, if_neg hp] at h
      simp [mapDelete, hp, ih h]

theorem mapGet_mapDelete_ne {α : Type} (k k' : String) (m : List (String × α))
    (h : k' ≠ k) : mapGet k (mapDelete k' m) = mapGet k m := by
  induction m with
  | nil => rfl
  | cons p rest ih =>
    rw [mapDelete]
    by_cases hp : p.1 = k'
    · rw [if_pos hp]
      have hpk : ¬ p.1 = k := by rw [hp]; exact h
      rw [show mapGet k (p :: rest) = mapGet k rest by rw [mapGet, if_neg hpk]]
    · rw [if_neg hp, mapGet, mapGet]
      by_cases hk : p.1 = k
      · rw [if_pos hk, if_pos hk]
      · rw [if_neg hk, if_neg hk, ih]

theorem mapGet_isSome_of_mem_keys {α : Type} (k : String) (m : List (String × α))
    (h : k ∈ m.map Prod.fst) : (mapGet k m).isSome := by
  induction m with
  | nil => simp at h
  | cons p rest ih =>
    by_cases hp : p.1 = k
    · simp [mapGet, hp]
    · rw [List.map_cons, List.mem_cons] at h
      rcases h with h | h
      · exact absurd h.symm hp
      · simpa [mapGet, hp] using ih h

theorem mem_keys_of_mapGet_some {α : Type} (k : String) (v : α) (m : List (String × α))
    (h : mapGet k m = some v) : k ∈ m.map Prod.fst := by
  induction m with
  | nil => exact Option.noConfusion h
  | cons p rest ih =>
    by_cases hp : p.1 = k
    · simp [hp]
    · rw [mapGet, if_neg hp] at h
      simp only [List.map_cons, List.mem_cons]
      exact Or.inr (ih h)

theorem mapDelete_keys_sublist {α : Type} (k : String) (m : List (String × α)) :
    List.Sublist ((mapDelete k m).map Prod.fst) (m.map Prod.fst) := by
  induction m with
  | nil => simp [mapDelete]
  | cons p rest ih =>
    by_cases hp : p.1 = k
    · simp only [mapDelete, if_pos hp, List.map_cons]
      exact List.sublist_cons_of_sublist _ (List.Sublist.refl _)
    · simp only [mapDelete, if_neg hp, List.map_cons]
      exact List.Sublist.cons₂ _ ih

theorem mapDelete_keys_nodup {α : Type} (k : String) (m : List (String × α))
    (h : (m.map Prod.fst).Nodup) : ((mapDelete k m).map Prod.fst).Nodup :=
  (mapDelete_keys_sublist k m).nodup h

theorem not_mem_keys_mapDelete_self {α : Type} (k : String) (m : List (String × α))
    (h : (m.map Prod.fst).Nodup) : k ∉ (mapDelete k m).map Prod.fst := by
  induction m with
  | nil => simp [mapDelete]
  | cons p rest ih =>
    rw [List.map_cons, List.nodup_cons] at h
    by_cases hp : p.1 = k
    · rw [mapDelete, if_pos hp]
      rw [hp] at h
      intro hmem
      exact h.1 hmem
    · rw [mapDelete, if_neg hp]
      intro hmem
      rw [List.map_cons, List.mem_cons] at hmem
      rcases hmem with hmem | hmem
      · exact hp hmem.symm
      · exact ih h.2 hmem

theorem getTotalCacheSize_mapDelete_of_some (k : String) (v : FetchCache)
    (m : List (String × FetchCache)) (h : mapGet k m = some v) :
    getTotalCacheSize m = v.data.length + getTotalCacheSize (mapDelete k m) := by
  induction m with
  | nil => exact Option.noConfusion h
  | cons p rest ih =>
    by_cases hp : p.1 = k
    · rw [mapGet, if_pos hp] at h
      have hv : p.2 = v := Option.some.inj h
      rw [mapDelete, if_pos hp]
      simp [getTotalCacheSize, hv]
    · rw [mapGet, if_neg hp] at h
      rw [mapDelete, if_neg hp]
      simp only [getTotalCacheSize, List.map_cons, List.sum_cons] at *
      rw [ih h]
      omega

theorem getTotalCacheSize_mapDelete_le (k : String) (m : List (String × FetchCache)) :
    getTotalCacheSize (mapDelete k m) ≤ getTotalCacheSize m := by
  induction m with
  | nil => exact Nat.le_refl _
  | cons p rest ih =>
    by_cases hp : p.1 = k
    · rw [mapDelete, if_pos hp]
      simp [getTotalCacheSize]
    · rw [mapDelete, if_neg hp]
      simp only [getTotalCacheSize, List.map_cons, List.sum_cons] at *
      omega

theorem getTotalCacheSize_append (m₁ m₂ : List (String × FetchCache)) :
    getTotalCacheSize (m₁ ++ m₂) = getTotalCacheSize m₁ + getTotalCacheSize m₂ := by
  simp [getTotalCacheSize]

theorem getTotalCacheSize_mapSet_some (k : String) (v w : FetchCache)
    (m : List (String × FetchCache)) (h : mapGet k m = some w) :
    getTotalCacheSize (mapSet k v m) + w.data.length =
      getTotalCacheSize m + v.data.length := by
  induction m with
  | nil => exact Option.noConfusion h
  | cons p rest ih =>
    by_cases hp : p.1 = k
    · rw [mapGet, if_pos hp] at h
      have hv : p.2 = w := Option.some.inj h
      rw [mapSet, if_pos hp]
      simp only [getTotalCacheSize, List.map_cons, List.sum_cons, hv]
      omega
    · rw [mapGet, if_neg hp] at h
      rw [mapSet, if_neg hp]
      have hrec := ih h
      simp only [getTotalCacheSize, List.map_cons, List.sum_cons] at *
      omega

theorem mapGet_mapDelete_self_nodup (k : String) (m : List (String × FetchCache))
    (h : (m.map Prod.fst).Nodup) : mapGet k (mapDelete k m) = none := by
  cases hget : mapGet k (mapDelete k m) with
  | none => rfl
  | some v =>
    exfalso
    exact not_mem_keys_mapDelete_self k m h (mem_keys_of_mapGet_some k v _ hget)

/-- The bytes the eviction loop frees for a given prefix of ids, measured
against a fixed cache. -/
def prefixFreed (cache : List (String × FetchCache)) (ids : List String) : Nat :=
  (ids.map (fun i =>
    match mapGet i cache with
    | some c => c.data.length
    | none => 0)).sum

theorem prefixFreed_cons (cache : List (String × FetchCache)) (i : String)
    (ids : List String) :
    prefixFreed cache (i :: ids) =
      (match mapGet i cache with
       | some c => c.data.length
       | none => 0) + prefixFreed cache ids := by
  simp [prefixFreed]

theorem prefixFreed_congr (m₁ m₂ : List (String × FetchCache)) (ids : List String)
    (h : ∀ i ∈ ids, mapGet i m₁ = mapGet i m₂) :
    prefixFreed m₁ ids = prefixFreed m₂ ids := by
  unfold prefixFreed
  congr 1
  apply List.map_congr_left
  intro i hi
  rw [h i hi]

theorem evictLoop_total (excessSize : Nat) :
    ∀ (order : List String) (freedSize : Nat) (cache : List (String × FetchCache)),
      (∀ k ∈ cache.map Prod.fst, k ∈ order) → (cache.map Prod.fst).Nodup →
      getTotalCacheSize (evictLoop excessSize freedSize cache order).1 + excessSize ≤
          getTotalCacheSize cache + freedSize ∨
        (evictLoop excessSize freedSize cache order).1 = [] := by
  intro order
  induction order with
  | nil =>
    intro freed cache hcov _
    right
    cases cache with
    | nil => rfl
    | cons p rest => exact absurd (hcov p.1 (by simp)) (List.not_mem_nil _)
  | cons oldest rest ih =>
    intro freed cache hcov hnodup
    simp only [evictLoop]
    by_cases hf : freed < excessSize
    · rw [if_pos hf]
      cases hget : mapGet oldest cache with
      | some oc =>
        dsimp only
        have hcov' : ∀ k ∈ (mapDelete oldest cache).map Prod.fst, k ∈ rest := by
          intro k hk
          have hmem := (mapDelete_keys_sublist oldest cache).subset hk
          rcases List.mem_cons.mp (hcov k hmem) with heq | hmem'
          · exfalso
            rw [heq] at hk
            exact not_mem_keys_mapDelete_self oldest cache hnodup hk
          · exact hmem'
        have hnodup' := mapDelete_keys_nodup oldest cache hnodup
        rcases ih (freed + oc.data.length) (mapDelete oldest cache) hcov' hnodup' with
          hle | hemp
        · left
          have htot := getTotalCacheSize_mapDelete_of_some oldest oc cache hget
          omega
        · right
          exact hemp
      | none =>
        dsimp only
        have hcov' : ∀ k ∈ cache.map Prod.fst, k ∈ rest := by
          intro k hk
          rcases List.mem_cons.mp (hcov k hk) with heq | hmem'
          · exfalso
            rw [heq] at hk
            have hsome := mapGet_isSome_of_mem_keys oldest cache hk
            rw [hget] at hsome
            simp at hsome
          · exact hmem'
        exact ih freed cache hcov' hnodup
    · rw [if_neg hf]
      left
      dsimp only [getTotalCacheSize]
      omega

theorem evictLoop_prefix (excessSize : Nat) :
    ∀ (order : List String) (freedSize : Nat) (cache : List (String × FetchCache)),
      order.Nodup →
      ∃ k, k ≤ order.length ∧
        (evictLoop excessSize freedSize cache order).2 = order.drop k ∧
        (evictLoop excessSize freedSize cache order).1 =
          (order.take k).foldl (fun m i => mapDelete i m) cache ∧
        ∀ j < k, freedSize + prefixFreed cache (order.take j) < excessSize := by
  intro order
  induction order with
  | nil =>
    intro freed cache _
    exact ⟨0, Nat.le_refl 0, rfl, rfl, fun j hj => absurd hj (Nat.not_lt_zero j)⟩
  | cons oldest rest ih =>
    intro freed cache hnodup
    simp only [evictLoop]
    have holdest : oldest ∉ rest := (List.nodup_cons.mp hnodup).1
    have hnodup' : rest.Nodup := (List.nodup_cons.mp hnodup).2
    by_cases hf : freed < excessSize
    · rw [if_pos hf]
      cases hget : mapGet oldest cache with
      | some oc =>
        dsimp only
        obtain ⟨k', hk'le, hord, hcache, hguard⟩ :=
          ih (freed + oc.data.length) (mapDelete oldest cache) hnodup'
        refine ⟨k' + 1, by simpa using Nat.succ_le_succ hk'le, by simpa using hord,
          by simpa using hcache, ?_⟩
        intro j hj
        cases j with
        | zero => simpa [prefixFreed] using hf
        | succ j' =>
          have hguard' := hguard j' (by omega)
          rw [List.take_succ_cons, prefixFreed_cons, hget]
          dsimp only
          have hcongr : prefixFreed (mapDelete oldest cache) (rest.take j') =
              prefixFreed cache (rest.take j') := by
            apply prefixFreed_congr
            intro i hi
            have hir : i ∈ rest := List.take_subset j' rest hi
            have hne : oldest ≠ i := fun hh => holdest (hh ▸ hir)
            exact mapGet_mapDelete_ne i oldest cache hne
          omega
      | none =>
        dsimp only
        obtain ⟨k', hk'le, hord, hcache, hguard⟩ := ih freed cache hnodup'
        refine ⟨k' + 1, by simpa using Nat.succ_le_succ hk'le, by simpa using hord, ?_, ?_⟩
        · rw [List.take_succ_cons, List.foldl_cons, mapDelete_of_none oldest cache hget]
          exact hcache
        · intro j hj
          cases j with
          | zero => simpa [prefixFreed] using hf
          | succ j' =>
            have hguard' := hguard j' (by omega)
            rw [List.take_succ_cons, prefixFreed_cons, hget]
            dsimp only
            omega
    · rw [if_neg hf]
      exact ⟨0, Nat.zero_le _, rfl, rfl, fun j hj => absurd hj (Nat.not_lt_zero j)⟩

theorem evictLoop_get (excessSize : Nat) :
    ∀ (order : List String) (freedSize : Nat) (cache : List (String × FetchCache))
      (k : String), (cache.map Prod.fst).Nodup →
      mapGet k (evictLoop excessSize freedSize cache order).1 = none ∨
      mapGet k (evictLoop excessSize freedSize cache order).1 = mapGet k cache := by
  intro order
  induction order with
  | nil =>
    intro freed cache k _
    right
    rfl
  | cons oldest rest ih =>
    intro freed cache k hnodup
    simp only [evictLoop]
    by_cases hf : freed < excessSize
    · rw [if_pos hf]
      cases hget : mapGet oldest cache with
      | some oc =>
        dsimp only
        have hnodup' := mapDelete_keys_nodup oldest cache hnodup
        rcases ih (freed + oc.data.length) (mapDelete oldest cache) k hnodup' with
          hnone | heq
        · exact Or.inl hnone
        · by_cases hk : oldest = k
          · rw [heq, hk, mapGet_mapDelete_self_nodup k cache hnodup]
            exact Or.inl rfl
          · rw [heq, mapGet_mapDelete_ne k oldest cache hk]
            exact Or.inr rfl
      | none =>
        dsimp only
        exact ih freed cache k hnodup
    · rw [if_neg hf]
      exact Or.inr rfl

theorem evictOldestLoop_total_le (maxCacheSize : Nat) :
    ∀ (n : Nat) (order : List String) (cache : List (String × FetchCache)),
      order.length ≤ n →
      getTotalCacheSize (evictOldestLoop maxCacheSize cache order).1 ≤
        getTotalCacheSize cache := by
  intro n
  induction n with
  | zero =>
    intro order cache h
    have horder : order = [] := List.eq_nil_of_length_eq_zero (Nat.le_zero.mp h)
    rw [horder]
    simp only [evictOldestLoop]
    exact Nat.le_refl _
  | succ n ihn =>
    intro order cache h
    cases order with
    | nil =>
      simp only [evictOldestLoop]
      exact Nat.le_refl _
    | cons oldest rest =>
      simp only [evictOldestLoop]
      by_cases hc : cache.length > maxCacheSize
      · rw [if_pos hc]
        have hlen : (rest.erase oldest).length ≤ n :=
          le_trans (List.length_erase_le _ _) (by simpa using h)
        exact le_trans (ihn (rest.erase oldest) (mapDelete oldest cache) hlen)
          (getTotalCacheSize_mapDelete_le oldest cache)
      · rw [if_neg hc]

/-- Claim C2: after the insert-then-evict sequence of `fetchAndCache`
settles, the sum of stored data lengths over the live fetch records stays
within `MAX_TOTAL_CACHE_SIZE` (assuming the incoming record itself fits the
global budget, as any record within `MAX_FILE_SIZE ≤ MAX_TOTAL_CACHE_SIZE`
does); the byte-budget eviction removes records strictly in
least-recently-touched-first order — the evicted ids are a prefix of the
recency list — and stops as soon as the freed bytes cover the excess: before
every eviction the bytes freed so far were still short of the excess. -/
theorem byte_budget_eviction (maxTotalCacheSize maxCacheSize : Nat) (st : FetchStore)
    (requestId url method : String) (headers : Option Headers) (timestamp expiresAt : Nat)
    (finalEntry : FetchCache) (fetchedSize : Nat)
    (hnodupO : st.accessOrder.Nodup)
    (hnodupC : (st.cache.map Prod.fst).Nodup)
    (hcover : ∀ k ∈ st.cache.map Prod.fst, k ∈ st.accessOrder)
    (hfreshC : mapGet requestId st.cache = none)
    (hfreshO : requestId ∉ st.accessOrder)
    (hsize : finalEntry.data.length = fetchedSize)
    (hbudget : fetchedSize ≤ maxTotalCacheSize) :
    getTotalCacheSize (fetchInsert maxTotalCacheSize maxCacheSize st requestId
      (initialEntry requestId url method headers timestamp expiresAt) finalEntry
      fetchedSize).cache ≤ maxTotalCacheSize ∧
    (∃ k, k ≤ (updateAccessOrder requestId st.accessOrder).length ∧
      (enforceStorageLimit maxTotalCacheSize fetchedSize (FetchStore.mk
        (mapSet requestId (initialEntry requestId url method headers timestamp expiresAt)
          st.cache)
        (updateAccessOrder requestId st.accessOrder))).accessOrder =
          (updateAccessOrder requestId st.accessOrder).drop k ∧
      (enforceStorageLimit maxTotalCacheSize fetchedSize (FetchStore.mk
        (mapSet requestId (initialEntry requestId url method headers timestamp expiresAt)
          st.cache)
        (updateAccessOrder requestId st.accessOrder))).cache =
          ((updateAccessOrder requestId st.accessOrder).take k).foldl
            (fun m i => mapDelete i m)
            (mapSet requestId (initialEntry requestId url method headers timestamp expiresAt)
              st.cache) ∧
      ∀ j < k,
        prefixFreed
          (mapSet requestId (initialEntry requestId url method headers timestamp expiresAt)
            st.cache)
          ((updateAccessOrder requestId st.accessOrder).take j) <
          getTotalCacheSize st.cache + fetchedSize - maxTotalCacheSize) := by
  have hdata0 : (initialEntry requestId url method headers timestamp expiresAt).data = [] :=
    rfl
  set entry0 := initialEntry requestId url method headers timestamp expiresAt with hentry0
  set cache1 := mapSet requestId entry0 st.cache with hcache1
  set order1 := updateAccessOrder requestId st.accessOrder with horder1def
  have hset : cache1 = st.cache ++ [(requestId, entry0)] :=
    mapSet_of_fresh requestId entry0 st.cache hfreshC
  have hord1 : order1 = st.accessOrder ++ [requestId] := by
    rw [horder1def]
    unfold updateAccessOrder
    rw [List.erase_of_not_mem hfreshO]
  have htot1 : getTotalCacheSize cache1 = getTotalCacheSize st.cache := by
    rw [hset, getTotalCacheSize_append]
    simp [getTotalCacheSize, hdata0]
  have hfreshK : requestId ∉ st.cache.map Prod.fst := by
    intro hmem
    have hs := mapGet_isSome_of_mem_keys requestId st.cache hmem
    rw [hfreshC] at hs
    simp at hs
  have hkeys1 : cache1.map Prod.fst = st.cache.map Prod.fst ++ [requestId] := by
    rw [hset]
    simp
  have hnodupC1 : (cache1.map Prod.fst).Nodup := by
    rw [hkeys1]
    refine List.Nodup.append hnodupC (List.nodup_singleton _) ?_
    intro a ha hb
    rw [List.mem_singleton] at hb
    rw [hb] at ha
    exact hfreshK ha
  have hnodupO1 : order1.Nodup := by
    rw [hord1]
    refine List.Nodup.append hnodupO (List.nodup_singleton _) ?_
    intro a ha hb
    rw [List.mem_singleton] at hb
    rw [hb] at ha
    exact hfreshO ha
  have hcover1 : ∀ k ∈ cache1.map Prod.fst, k ∈ order1 := by
    rw [hkeys1, hord1]
    intro k hk
    rcases List.mem_append.mp hk with hk | hk
    · exact List.mem_append.mpr (Or.inl (hcover k hk))
    · exact List.mem_append.mpr (Or.inr hk)
  have hget1 : mapGet requestId cache1 = some entry0 := mapGet_mapSet_self requestId entry0 _
  -- the enforce step
  by_cases hover : getTotalCacheSize cache1 + fetchedSize > maxTotalCacheSize
  · -- eviction runs
    have henf : enforceStorageLimit maxTotalCacheSize fetchedSize (FetchStore.mk cache1 order1) =
        FetchStore.mk
          (evictLoop (getTotalCacheSize cache1 + fetchedSize - maxTotalCacheSize) 0 cache1
            order1).1
          (evictLoop (getTotalCacheSize cache1 + fetchedSize - maxTotalCacheSize) 0 cache1
            order1).2 := by
      simp only [enforceStorageLimit]
      rw [if_pos hover]
    have hloop := evictLoop_total (getTotalCacheSize cache1 + fetchedSize - maxTotalCacheSize)
      order1 0 cache1 hcover1 hnodupC1
    have h2 : getTotalCacheSize (enforceStorageLimit maxTotalCacheSize fetchedSize
        (FetchStore.mk cache1 order1)).cache + fetchedSize ≤ maxTotalCacheSize := by
      rw [henf]
      dsimp only
      rcases hloop with hle | hemp
      · omega
      · rw [hemp]
        simpa [getTotalCacheSize] using hbudget
    have hget2 : mapGet requestId (enforceStorageLimit maxTotalCacheSize fetchedSize
        (FetchStore.mk cache1 order1)).cache = none ∨
        mapGet requestId (enforceStorageLimit maxTotalCacheSize fetchedSize
          (FetchStore.mk cache1 order1)).cache = some entry0 := by
      rw [henf]
      dsimp only
      rcases evictLoop_get (getTotalCacheSize cache1 + fetchedSize - maxTotalCacheSize)
          order1 0 cache1 requestId hnodupC1 with hn | he
      · exact Or.inl hn
      · rw [hget1] at he
        exact Or.inr he
    constructor
    · -- budget after finalize and count-cap
      have h3 : getTotalCacheSize (mapSet requestId finalEntry
          (enforceStorageLimit maxTotalCacheSize fetchedSize
            (FetchStore.mk cache1 order1)).cache) =
          getTotalCacheSize (enforceStorageLimit maxTotalCacheSize fetchedSize
            (FetchStore.mk cache1 order1)).cache + fetchedSize := by
        rcases hget2 with hn | he
        · rw [mapSet_of_fresh _ _ _ hn, getTotalCacheSize_append]
          simp [getTotalCacheSize, hsize]
        · have := getTotalCacheSize_mapSet_some requestId finalEntry entry0 _ he
          have hz : entry0.data.length = 0 := by rw [hdata0]; rfl
          omega
      simp only [fetchInsert]
      rw [← hcache1, ← horder1def]
      by_cases hcnt : (mapSet requestId finalEntry
          (enforceStorageLimit maxTotalCacheSize fetchedSize
            (FetchStore.mk cache1 order1)).cache).length > maxCacheSize
      · rw [if_pos hcnt]
        refine le_trans (evictOldestLoop_total_le maxCacheSize
          (enforceStorageLimit maxTotalCacheSize fetchedSize
            (FetchStore.mk cache1 order1)).accessOrder.length _ _ (Nat.le_refl _)) ?_
        omega
      · rw [if_neg hcnt]
        dsimp only
        omega
    · -- eviction order and no over-eviction
      obtain ⟨k, hkle, hord, hcac, hguard⟩ := evictLoop_prefix
        (getTotalCacheSize cache1 + fetchedSize - maxTotalCacheSize) order1 0 cache1 hnodupO1
      refine ⟨k, hkle, ?_, ?_, ?_⟩
      · rw [henf]
        exact hord
      · rw [henf]
        exact hcac
      · intro j hj
        have := hguard j hj
        rw [htot1] at this
        omega
  · -- no eviction needed
    have henf : enforceStorageLimit maxTotalCacheSize fetchedSize
        (FetchStore.mk cache1 order1) = FetchStore.mk cache1 order1 := by
      simp only [enforceStorageLimit]
      rw [if_neg hover]
    constructor
    · have h3 : getTotalCacheSize (mapSet requestId finalEntry cache1) =
          getTotalCacheSize cache1 + fetchedSize := by
        have := getTotalCacheSize_mapSet_some requestId finalEntry entry0 cache1 hget1
        have hz : entry0.data.length = 0 := by rw [hdata0]; rfl
        omega
      simp only [fetchInsert]
      rw [← hcache1, ← horder1def, henf]
      dsimp only
      by_cases hcnt : (mapSet requestId finalEntry cache1).length > maxCacheSize
      · rw [if_pos hcnt]
        refine le_trans (evictOldestLoop_total_le maxCacheSize order1.length _ _
          (Nat.le_refl _)) ?_
        omega
      · rw [if_neg hcnt]
        dsimp only
        omega
    · refine ⟨0, Nat.zero_le _, ?_, ?_, fun j hj => absurd hj (Nat.not_lt_zero j)⟩
      · rw [henf]
        dsimp only
        rw [List.drop_zero]
      · rw [henf]
        dsimp only
        rw [List.take_zero, List.foldl_nil]

/-- A simple completed record with an n-byte buffer, for concrete witnesses. -/
def recBytes (id : String) (n : Nat) : FetchCache :=
  { requestId := id
    url := "https://example.com"
    method := "GET"
    timestamp := 0
    expiresAt := 3600000
    status := .completed
    data := List.replicate n 0 }

/-- Witness for C2 at a concrete store: two records of 3 and 4 bytes under a
5-byte budget, inserting a 2-byte record, stays within the budget. -/
theorem byte_budget_eviction_witness :
    getTotalCacheSize (fetchInsert 5 10
      (FetchStore.mk [("a", recBytes "a" 3), ("b", recBytes "b" 4)] ["a", "b"]) "c"
      (initialEntry "c" "https://example.com" "GET" none 0 3600000) (recBytes "c" 2) 2).cache
      ≤ 5 :=
  (byte_budget_eviction 5 10
    (FetchStore.mk [("a", recBytes "a" 3), ("b", recBytes "b" 4)] ["a", "b"])
    "c" "https://example.com" "GET" none 0 3600000 (recBytes "c" 2) 2
    (by decide) (by decide) (by decide) (by decide) (by decide) (by decide) (by decide)).1

theorem mem_eq_of_mapGet_nodup {α : Type} (m : List (String × α)) (p : String × α) (v : α)
    (hnodup : (m.map Prod.fst).Nodup) (hmem : p ∈ m) (hget : mapGet p.1 m = some v) :
    p.2 = v := by
  induction m with
  | nil => exact absurd hmem (List.not_mem_nil p)
  | cons q rest ih =>
    rw [List.map_cons, List.nodup_cons] at hnodup
    rcases List.mem_cons.mp hmem with heq | hmem'
    · rw [heq] at hget
      rw [mapGet, if_pos rfl] at hget
      rw [heq]
      exact Option.some.inj hget
    · have hne : ¬ q.1 = p.1 := by
        intro hq
        exact hnodup.1 (hq ▸ (List.mem_map.mpr ⟨p, hmem', rfl⟩))
      rw [mapGet, if_neg hne] at hget
      exact ih hnodup.2 hmem' hget

theorem listFetchHistory_omits_expired (now : Nat) (st : FetchStore) (requestId : String)
    (c : FetchCache) (filterId : Option String) (page limit : Nat)
    (hget : mapGet requestId st.cache = some c) (hexp : now > c.expiresAt)
    (hcoh : ∀ p ∈ st.cache, p.1 = p.2.requestId)
    (hnodup : (st.cache.map Prod.fst).Nodup) :
    ∀ r ∈ (listFetchHistory now st filterId page limit).rows, r.requestId ≠ requestId := by
  intro r hr hreq
  simp only [listFetchHistory] at hr
  have h1 := List.take_subset _ _ (List.drop_subset _ _ hr)
  have h2 := (List.mergeSort_perm _ _).mem_iff.mp h1
  obtain ⟨p, hpmem, hpr⟩ := List.mem_map.mp h2
  have hpfil := List.mem_filter.mp hpmem
  have hcond := of_decide_eq_true hpfil.2
  have hpreq : p.2.requestId = requestId := by
    rw [← hreq, ← hpr]
  have hkey : p.1 = requestId := by
    rw [hcoh p hpfil.1, hpreq]
  have hpc : p.2 = c := by
    refine mem_eq_of_mapGet_nodup st.cache p c hnodup hpfil.1 ?_
    rw [hkey]
    exact hget
  have : ¬ isExpired now p.2.expiresAt = true := hcond.1
  rw [hpc] at this
  exact this (by simpa [isExpired] using hexp)

theorem listSearchHistory_omits_expired (now : Nat) (st : SearchStore) (searchId : String)
    (sc : SearchCache) (keyword : Option String) (page limit : Nat)
    (hget : mapGet searchId st.cache = some sc) (hexp : now > sc.expiresAt)
    (hcoh : ∀ p ∈ st.cache, p.1 = p.2.searchId)
    (hnodup : (st.cache.map Prod.fst).Nodup) :
    ∀ r ∈ (listSearchHistory now st keyword page limit).rows, r.searchId ≠ searchId := by
  intro r hr hreq
  simp only [listSearchHistory] at hr
  have h2 : r ∈ ((st.cache.filter (fun p => ¬ isExpired now p.2.expiresAt)).map
      (fun p =>
        ({ searchId := p.2.searchId
           query := p.2.query
           timestamp := p.2.timestamp
           resultCount := p.2.results.length
           expiresAt := p.2.expiresAt } : SearchHistoryEntry))).mergeSort
      (fun a b => decide (b.timestamp ≤ a.timestamp)) := by
    cases keyword with
    | none => exact List.take_subset _ _ (List.drop_subset _ _ hr)
    | some kw =>
      dsimp only at hr
      by_cases hkw : kw = ""
      · rw [if_pos hkw] at hr
        exact List.take_subset _ _ (List.drop_subset _ _ hr)
      · rw [if_neg hkw] at hr
        exact List.mem_of_mem_filter (List.take_subset _ _ (List.drop_subset _ _ hr))
  have h3 := (List.mergeSort_perm _ _).mem_iff.mp h2
  obtain ⟨p, hpmem, hpr⟩ := List.mem_map.mp h3
  have hpfil := List.mem_filter.mp hpmem
  have hcond := of_decide_eq_true hpfil.2
  have hpreq : p.2.searchId = searchId := by
    rw [← hreq, ← hpr]
  have hkey : p.1 = searchId := by
    rw [hcoh p hpfil.1, hpreq]
  have hpc : p.2 = sc := by
    refine mem_eq_of_mapGet_nodup st.cache p sc hnodup hpfil.1 ?_
    rw [hkey]
    exact hget
  rw [hpc] at hcond
  exact hcond (by simpa [isExpired] using hexp)

/-- Claim C4: a record whose `expiresAt` lies in the past is unreachable
through every getter — each reports a miss and deletes the record (or its
dangling index entry) on the way — and is omitted by both history listings,
before any sweep runs. -/
theorem lazy_expiry_unreachable (now : Nat) (stF : FetchStore) (requestId : String)
    (c : FetchCache) (stS : SearchStore) (searchId : String) (sc : SearchCache)
    (resultId : String) (includeHeaders : Bool) (startPosition size : Nat)
    (filterId : Option String) (page limit : Nat) (keyword : Option String)
    (hgetF : mapGet requestId stF.cache = some c)
    (hexpF : now > c.expiresAt)
    (hcohF : ∀ p ∈ stF.cache, p.1 = p.2.requestId)
    (hnodupF : (stF.cache.map Prod.fst).Nodup)
    (hgetS : mapGet searchId stS.cache = some sc)
    (hexpS : now > sc.expiresAt)
    (hcohS : ∀ p ∈ stS.cache, p.1 = p.2.searchId)
    (hnodupS : (stS.cache.map Prod.fst).Nodup)
    (hidx : mapGet resultId stS.resultIndex = some searchId) :
    (getByRequestId now stF requestId).1 = none ∧
    (getByRequestId now stF requestId).2 = removeCache stF requestId ∧
    (getFetchData now stF requestId includeHeaders startPosition size).1 = none ∧
    (∀ r ∈ (listFetchHistory now stF filterId page limit).rows,
      r.requestId ≠ requestId) ∧
    (getProcessedView (Externals.mk id (fun _ => none) (fun _ => "")) failEngine now stF
      requestId 4096 {}).1 = none ∧
    (getBySearchId now stS searchId).1 = none ∧
    (getBySearchId now stS searchId).2 = removeSearchCache stS searchId ∧
    (getByResultId now stS resultId).1 = none ∧
    (∀ r ∈ (listSearchHistory now stS keyword page limit).rows,
      r.searchId ≠ searchId) := by
  have hgbr : getByRequestId now stF requestId = (none, removeCache stF requestId) := by
    rw [getByRequestId, hgetF]
    dsimp only
    rw [if_pos (by simpa [isExpired] using hexpF)]
  have hgbs : getBySearchId now stS searchId = (none, removeSearchCache stS searchId) := by
    rw [getBySearchId, hgetS]
    dsimp only
    rw [if_pos (by simpa [isExpired] using hexpS)]
  refine ⟨by rw [hgbr], by rw [hgbr], ?_, ?_, ?_, by rw [hgbs], by rw [hgbs], ?_, ?_⟩
  · rw [getFetchData, hgbr]
  · exact listFetchHistory_omits_expired now stF requestId c filterId page limit hgetF hexpF
      hcohF hnodupF
  · rw [getProcessedView, hgbr]
  · rw [getByResultId, hidx]
    dsimp only
    rw [hgbs]
  · exact listSearchHistory_omits_expired now stS searchId sc keyword page limit hgetS hexpS
      hcohS hnodupS

/-- Witness for C4: at time 200, a fetch record and a search record that
expired at time 100 are misses for `getByRequestId` and `getByResultId`. -/
theorem lazy_expiry_unreachable_witness :
    (getByRequestId 200 (FetchStore.mk
      [("f1", initialEntry "f1" "https://example.com" "GET" none 0 100)] ["f1"]) "f1").1 =
      none ∧
    (getByResultId 200 (SearchStore.mk [("s1", SearchCache.mk "s1" "cats" [] 0 100)]
      [("r1", "s1")] ["s1"]) "r1").1 = none :=
  ⟨(lazy_expiry_unreachable 200
      (FetchStore.mk [("f1", initialEntry "f1" "https://example.com" "GET" none 0 100)] ["f1"])
      "f1" (initialEntry "f1" "https://example.com" "GET" none 0 100)
      (SearchStore.mk [("s1", SearchCache.mk "s1" "cats" [] 0 100)] [("r1", "s1")] ["s1"])
      "s1" (SearchCache.mk "s1" "cats" [] 0 100) "r1" false 0 0 none 1 10 none
      (by decide) (by decide) (by decide) (by decide) (by decide) (by decide) (by decide)
      (by decide) (by decide)).1,
   (lazy_expiry_unreachable 200
      (FetchStore.mk [("f1", initialEntry "f1" "https://example.com" "GET" none 0 100)] ["f1"])
      "f1" (initialEntry "f1" "https://example.com" "GET" none 0 100)
      (SearchStore.mk [("s1", SearchCache.mk "s1" "cats" [] 0 100)] [("r1", "s1")] ["s1"])
      "s1" (SearchCache.mk "s1" "cats" [] 0 100) "r1" false 0 0 none 1 10 none
      (by decide) (by decide) (by decide) (by decide) (by decide) (by decide) (by decide)
      (by decide) (by decide)).2.2.2.2.2.2.2.1⟩

theorem mapSet_keys_of_some {α : Type} (k : String) (v w : α) (m : List (String × α))
    (h : mapGet k m = some w) : (mapSet k v m).map Prod.fst = m.map Prod.fst := by
  induction m with
  | nil => exact Option.noConfusion h
  | cons p rest ih =>
    by_cases hp : p.1 = k
    · rw [mapSet, if_pos hp]
      simp [hp]
    · rw [mapGet, if_neg hp] at h
      rw [mapSet, if_neg hp, List.map_cons, List.map_cons, ih h]

theorem not_mem_keys_of_mapGet_none {α : Type} (k : String) (m : List (String × α))
    (h : mapGet k m = none) : k ∉ m.map Prod.fst := by
  intro hmem
  have hs := mapGet_isSome_of_mem_keys k m hmem
  rw [h] at hs
  simp at hs

theorem evictLoop_keys_nodup (excessSize : Nat) :
    ∀ (order : List String) (freedSize : Nat) (cache : List (String × FetchCache)),
      (cache.map Prod.fst).Nodup →
      ((evictLoop excessSize freedSize cache order).1.map Prod.fst).Nodup := by
  intro order
  induction order with
  | nil =>
    intro freed cache h
    exact h
  | cons oldest rest ih =>
    intro freed cache h
    simp only [evictLoop]
    by_cases hf : freed < excessSize
    · rw [if_pos hf]
      cases hget : mapGet oldest cache with
      | some oc =>
        dsimp only
        exact ih _ _ (mapDelete_keys_nodup oldest cache h)
      | none =>
        dsimp only
        exact ih _ _ h
    · rw [if_neg hf]
      exact h

theorem evictLoop_cover (excessSize : Nat) :
    ∀ (order : List String) (freedSize : Nat) (cache : List (String × FetchCache)),
      (cache.map Prod.fst).Nodup →
      (∀ k ∈ cache.map Prod.fst, k ∈ order) →
      ∀ k ∈ (evictLoop excessSize freedSize cache order).1.map Prod.fst,
        k ∈ (evictLoop excessSize freedSize cache order).2 := by
  intro order
  induction order with
  | nil =>
    intro freed cache _ hcov k hk
    exact hcov k hk
  | cons oldest rest ih =>
    intro freed cache hnodup hcov
    simp only [evictLoop]
    by_cases hf : freed < excessSize
    · rw [if_pos hf]
      cases hget : mapGet oldest cache with
      | some oc =>
        dsimp only
        refine ih _ _ (mapDelete_keys_nodup oldest cache hnodup) ?_
        intro k hk
        have hmem := (mapDelete_keys_sublist oldest cache).subset hk
        rcases List.mem_cons.mp (hcov k hmem) with heq | hmem'
        · exact absurd (heq ▸ hk) (not_mem_keys_mapDelete_self oldest cache hnodup)
        · exact hmem'
      | none =>
        dsimp only
        refine ih _ _ hnodup ?_
        intro k hk
        rcases List.mem_cons.mp (hcov k hk) with heq | hmem'
        · exact absurd (heq ▸ hk) (not_mem_keys_of_mapGet_none oldest cache hget)
        · exact hmem'
    · rw [if_neg hf]
      exact hcov

theorem evictOldestLoop_singleton_get (maxCacheSize : Nat) (hmax : 1 ≤ maxCacheSize)
    (id : String) (cache : List (String × FetchCache))
    (hnodupC : (cache.map Prod.fst).Nodup)
    (hcov : ∀ k ∈ cache.map Prod.fst, k ∈ [id]) :
    mapGet id (evictOldestLoop maxCacheSize cache [id]).1 = mapGet id cache := by
  simp only [evictOldestLoop]
  have hlen : cache.length = (cache.map Prod.fst).length := (List.length_map _ _).symm
  have hsmall : cache.length ≤ 1 := by
    cases hk : cache.map Prod.fst with
    | nil =>
      rw [hlen, hk]
      simp
    | cons k1 ktail =>
      cases ht : ktail with
      | nil =>
        rw [hlen, hk, ht]
        simp
      | cons k2 krest =>
        exfalso
        have h1 : k1 ∈ [id] := hcov k1 (by rw [hk]; simp)
        have h2 : k2 ∈ [id] := hcov k2 (by rw [hk, ht]; simp)
        rw [List.mem_singleton] at h1 h2
        have hn := hnodupC
        rw [hk, ht, List.nodup_cons] at hn
        exact hn.1 (by rw [h1, ← h2]; simp)
  rw [if_neg (by omega)]

theorem evictOldestLoop_get_last (maxCacheSize : Nat) (hmax : 1 ≤ maxCacheSize) :
    ∀ (n : Nat) (os : List String) (id : String) (cache : List (String × FetchCache)),
      os.length ≤ n →
      (os ++ [id]).Nodup →
      (cache.map Prod.fst).Nodup →
      (∀ k ∈ cache.map Prod.fst, k ∈ os ++ [id]) →
      mapGet id (evictOldestLoop maxCacheSize cache (os ++ [id])).1 = mapGet id cache := by
  intro n
  induction n with
  | zero =>
    intro os id cache hlen _ hnodupC hcov
    have hos : os = [] := List.eq_nil_of_length_eq_zero (Nat.le_zero.mp hlen)
    subst hos
    rw [List.nil_append] at hcov ⊢
    exact evictOldestLoop_singleton_get maxCacheSize hmax id cache hnodupC hcov
  | succ n ihn =>
    intro os id cache hlen hnodupO hnodupC hcov
    cases os with
    | nil =>
      rw [List.nil_append] at hcov ⊢
      exact evictOldestLoop_singleton_get maxCacheSize hmax id cache hnodupC hcov
    | cons o os' =>
      simp only [List.cons_append, evictOldestLoop]
      by_cases hc : cache.length > maxCacheSize
      · rw [if_pos hc]
        have hnodupO' : (os' ++ [id]).Nodup := (List.nodup_cons.mp hnodupO).2
        have ho : o ∉ os' ++ [id] := (List.nodup_cons.mp hnodupO).1
        have hoid : o ≠ id := fun hh => ho (hh ▸ List.mem_append.mpr (Or.inr (by simp)))
        have herase : (os' ++ [id]).erase o = os' ++ [id] := List.erase_of_not_mem ho
        rw [herase]
        have hcov' : ∀ k ∈ (mapDelete o cache).map Prod.fst, k ∈ os' ++ [id] := by
          intro k hk
          have hmem := (mapDelete_keys_sublist o cache).subset hk
          rcases List.mem_cons.mp (hcov k hmem) with heq | hmem'
          · exact absurd (heq ▸ hk) (not_mem_keys_mapDelete_self o cache hnodupC)
          · exact hmem'
        rw [ihn os' id (mapDelete o cache) (by simpa using hlen) hnodupO'
          (mapDelete_keys_nodup o cache hnodupC) hcov']
        exact mapGet_mapDelete_ne id o cache hoid
      · rw [if_neg hc]

theorem fetchInsert_get (maxTotalCacheSize maxCacheSize : Nat) (st : FetchStore)
    (requestId url method : String) (headers : Option Headers) (timestamp expiry : Nat)
    (finalEntry : FetchCache) (fetchedSize : Nat)
    (hmax : 1 ≤ maxCacheSize)
    (hnodupO : st.accessOrder.Nodup)
    (hnodupC : (st.cache.map Prod.fst).Nodup)
    (hcover : ∀ k ∈ st.cache.map Prod.fst, k ∈ st.accessOrder)
    (hfreshC : mapGet requestId st.cache = none)
    (hfreshO : requestId ∉ st.accessOrder) :
    mapGet requestId (fetchInsert maxTotalCacheSize maxCacheSize st requestId
      (initialEntry requestId url method headers timestamp expiry) finalEntry
      fetchedSize).cache = some finalEntry := by
  set entry0 := initialEntry requestId url method headers timestamp expiry with hentry0
  set cache1 := mapSet requestId entry0 st.cache with hcache1
  set order1 := updateAccessOrder requestId st.accessOrder with horder1def
  have hord1 : order1 = st.accessOrder ++ [requestId] := by
    rw [horder1def]
    unfold updateAccessOrder
    rw [List.erase_of_not_mem hfreshO]
  have hfreshK : requestId ∉ st.cache.map Prod.fst :=
    not_mem_keys_of_mapGet_none requestId st.cache hfreshC
  have hkeys1 : cache1.map Prod.fst = st.cache.map Prod.fst ++ [requestId] := by
    rw [hcache1, mapSet_of_fresh requestId entry0 st.cache hfreshC]
    simp
  have hnodupC1 : (cache1.map Prod.fst).Nodup := by
    rw [hkeys1]
    refine List.Nodup.append hnodupC (List.nodup_singleton _) ?_
    intro a ha hb
    rw [List.mem_singleton] at hb
    exact hfreshK (hb ▸ ha)
  have hnodupO1 : order1.Nodup := by
    rw [hord1]
    refine List.Nodup.append hnodupO (List.nodup_singleton _) ?_
    intro a ha hb
    rw [List.mem_singleton] at hb
    exact hfreshO (hb ▸ ha)
  have hcover1 : ∀ k ∈ cache1.map Prod.fst, k ∈ order1 := by
    rw [hkeys1, hord1]
    intro k hk
    rcases List.mem_append.mp hk with hk | hk
    · exact List.mem_append.mpr (Or.inl (hcover k hk))
    · exact List.mem_append.mpr (Or.inr hk)
  -- properties of the store after the byte-budget eviction
  have hst2 : ∃ st2 : FetchStore,
      enforceStorageLimit maxTotalCacheSize fetchedSize (FetchStore.mk cache1 order1) = st2 ∧
      (st2.cache.map Prod.fst).Nodup ∧
      (∀ k ∈ st2.cache.map Prod.fst, k ∈ st2.accessOrder) ∧
      (∃ j, j ≤ order1.length ∧ st2.accessOrder = order1.drop j) := by
    by_cases hover : getTotalCacheSize cache1 + fetchedSize > maxTotalCacheSize
    · refine ⟨FetchStore.mk
        (evictLoop (getTotalCacheSize cache1 + fetchedSize - maxTotalCacheSize) 0 cache1
          order1).1
        (evictLoop (getTotalCacheSize cache1 + fetchedSize - maxTotalCacheSize) 0 cache1
          order1).2, ?_, ?_, ?_, ?_⟩
      · simp only [enforceStorageLimit]
        rw [if_pos hover]
      · exact evictLoop_keys_nodup _ order1 0 cache1 hnodupC1
      · exact evictLoop_cover _ order1 0 cache1 hnodupC1 hcover1
      · obtain ⟨j, hjle, hord, _, _⟩ := evictLoop_prefix
          (getTotalCacheSize cache1 + fetchedSize - maxTotalCacheSize) order1 0 cache1
          hnodupO1
        exact ⟨j, hjle, hord⟩
    · refine ⟨FetchStore.mk cache1 order1, ?_, hnodupC1, hcover1, 0, Nat.zero_le _, ?_⟩
      · simp only [enforceStorageLimit]
        rw [if_neg hover]
      · rw [List.drop_zero]
  obtain ⟨st2, henf, hnodupC2, hcover2, j, hjle, hord2⟩ := hst2
  have hget3 : mapGet requestId (mapSet requestId finalEntry st2.cache) = some finalEntry :=
    mapGet_mapSet_self requestId finalEntry st2.cache
  have hkeys3 : ∀ k ∈ (mapSet requestId finalEntry st2.cache).map Prod.fst,
      k = requestId ∨ k ∈ st2.cache.map Prod.fst := by
    intro k hk
    cases hg : mapGet requestId st2.cache with
    | some w =>
      rw [mapSet_keys_of_some requestId finalEntry w st2.cache hg] at hk
      exact Or.inr hk
    | none =>
      rw [mapSet_of_fresh requestId finalEntry st2.cache hg] at hk
      simp only [List.map_append, List.mem_append] at hk
      rcases hk with hk | hk
      · exact Or.inr hk
      · simp at hk
        exact Or.inl hk
  have hnodupC3 : ((mapSet requestId finalEntry st2.cache).map Prod.fst).Nodup := by
    cases hg : mapGet requestId st2.cache with
    | some w =>
      rw [mapSet_keys_of_some requestId finalEntry w st2.cache hg]
      exact hnodupC2
    | none =>
      rw [mapSet_of_fresh requestId finalEntry st2.cache hg]
      simp only [List.map_append]
      refine List.Nodup.append hnodupC2 (by simp) ?_
      intro a ha hb
      simp at hb
      exact not_mem_keys_of_mapGet_none requestId st2.cache hg (hb ▸ ha)
  simp only [fetchInsert]
  rw [← hcache1, ← horder1def, henf]
  by_cases hcnt : (mapSet requestId finalEntry st2.cache).length > maxCacheSize
  · rw [if_pos hcnt]
    dsimp only
    by_cases hj : j ≤ st.accessOrder.length
    · -- the access order still ends with the fresh id
      have hform : st2.accessOrder = st.accessOrder.drop j ++ [requestId] := by
        rw [hord2, hord1, List.drop_append_of_le_length hj]
      have hnodup2 : (st.accessOrder.drop j ++ [requestId]).Nodup := by
        rw [← hform, hord2]
        exact hnodupO1.sublist (List.drop_sublist j order1)
      have hcov3 : ∀ k ∈ (mapSet requestId finalEntry st2.cache).map Prod.fst,
          k ∈ st.accessOrder.drop j ++ [requestId] := by
        intro k hk
        rcases hkeys3 k hk with hk1 | hk2
        · rw [hk1]
          exact List.mem_append.mpr (Or.inr (by simp))
        · rw [← hform]
          exact hcover2 k hk2
      rw [hform]
      rw [evictOldestLoop_get_last maxCacheSize hmax (st.accessOrder.drop j).length
        (st.accessOrder.drop j) requestId (mapSet requestId finalEntry st2.cache)
        (Nat.le_refl _) hnodup2 hnodupC3 hcov3]
      exact hget3
    · -- the whole access order was consumed by the byte-budget eviction
      exfalso
      have hordnil : st2.accessOrder = [] := by
        rw [hord2]
        refine List.drop_eq_nil_of_le ?_
        rw [hord1]
        simp only [List.length_append, List.length_singleton]
        omega
      have hempty : st2.cache = [] := by
        cases hc : st2.cache with
        | nil => rfl
        | cons p rest =>
          exfalso
          have := hcover2 p.1 (by rw [hc]; simp)
          rw [hordnil] at this
          exact List.not_mem_nil _ this
      have hlen3 : (mapSet requestId finalEntry st2.cache).length = 1 := by
        rw [hempty]
        rfl
      omega
  · rw [if_neg hcnt]
    dsimp only
    exact hget3

/-- Concrete external collaborators for counterexamples and witnesses:
identity HTML conversion, always-failing JSON parse, empty UTF-8 decode. -/
def plainExternals : Externals :=
  { htmlToTextSkip := id
    jsonParsePretty := fun _ => none
    utf8Decode := fun _ => "" }

theorem roundTripFields {R : Type} (ext : Externals) (eng : RegexEngine R)
    (cacheEntry : FetchCache) (requestId : String) (httpStatus : Nat) (statusText : String)
    (contentType : Option String) (expectedSize : Option Nat) (rh : Option Headers)
    (allData : Buf) (fetchedSize : Nat) (outputSize : Nat) (o : ProcOptions)
    (includeRH : Bool) (warning : Option String) :
    (mkFetchResult ext eng requestId httpStatus statusText contentType expectedSize
        fetchedSize allData outputSize o includeRH rh warning).status =
      (getProcessedViewOf ext eng (mkFinalEntry cacheEntry httpStatus statusText contentType
        expectedSize rh allData fetchedSize) outputSize o).status ∧
    (warning = none →
      (mkFetchResult ext eng requestId httpStatus statusText contentType expectedSize
          fetchedSize allData outputSize o includeRH rh warning).statusText =
        (getProcessedViewOf ext eng (mkFinalEntry cacheEntry httpStatus statusText contentType
          expectedSize rh allData fetchedSize) outputSize o).statusText) ∧
    (mkFetchResult ext eng requestId httpStatus statusText contentType expectedSize
        fetchedSize allData outputSize o includeRH rh warning).contentType =
      (getProcessedViewOf ext eng (mkFinalEntry cacheEntry httpStatus statusText contentType
        expectedSize rh allData fetchedSize) outputSize o).contentType ∧
    (mkFetchResult ext eng requestId httpStatus statusText contentType expectedSize
        fetchedSize allData outputSize o includeRH rh warning).actualSize =
      (getProcessedViewOf ext eng (mkFinalEntry cacheEntry httpStatus statusText contentType
        expectedSize rh allData fetchedSize) outputSize o).actualSize ∧
    (mkFetchResult ext eng requestId httpStatus statusText contentType expectedSize
        fetchedSize allData outputSize o includeRH rh warning).processed =
      (getProcessedViewOf ext eng (mkFinalEntry cacheEntry httpStatus statusText contentType
        expectedSize rh allData fetchedSize) outputSize o).processed ∧
    (mkFetchResult ext eng requestId httpStatus statusText contentType expectedSize
        fetchedSize allData outputSize o includeRH rh warning).textSize =
      (getProcessedViewOf ext eng (mkFinalEntry cacheEntry httpStatus statusText contentType
        expectedSize rh allData fetchedSize) outputSize o).textSize ∧
    (mkFetchResult ext eng requestId httpStatus statusText contentType expectedSize
        fetchedSize allData outputSize o includeRH rh warning).data =
      (getProcessedViewOf ext eng (mkFinalEntry cacheEntry httpStatus statusText contentType
        expectedSize rh allData fetchedSize) outputSize o).data ∧
    (mkFetchResult ext eng requestId httpStatus statusText contentType expectedSize
        fetchedSize allData outputSize o includeRH rh warning).summary =
      (getProcessedViewOf ext eng (mkFinalEntry cacheEntry httpStatus statusText contentType
        expectedSize rh allData fetchedSize) outputSize o).summary ∧
    (mkFetchResult ext eng requestId httpStatus statusText contentType expectedSize
        fetchedSize allData outputSize o includeRH rh warning).matchResults =
      (getProcessedViewOf ext eng (mkFinalEntry cacheEntry httpStatus statusText contentType
        expectedSize rh allData fetchedSize) outputSize o).matchResults ∧
    (mkFetchResult ext eng requestId httpStatus statusText contentType expectedSize
        fetchedSize allData outputSize o includeRH rh warning).rawPreview =
      (getProcessedViewOf ext eng (mkFinalEntry cacheEntry httpStatus statusText contentType
        expectedSize rh allData fetchedSize) outputSize o).rawPreview ∧
    (mkFetchResult ext eng requestId httpStatus statusText contentType expectedSize
        fetchedSize allData outputSize o includeRH rh warning).isComplete =
      (getProcessedViewOf ext eng (mkFinalEntry cacheEntry httpStatus statusText contentType
        expectedSize rh allData fetchedSize) outputSize o).isComplete ∧
    (expectedSize = some allData.length →
      (mkFetchResult ext eng requestId httpStatus statusText contentType expectedSize
          fetchedSize allData outputSize o includeRH rh warning).contentSize =
        (getProcessedViewOf ext eng (mkFinalEntry cacheEntry httpStatus statusText contentType
          expectedSize rh allData fetchedSize) outputSize o).contentSize) := by
  by_cases hcond : computedError httpStatus statusText = none ∧ warning ≠ none
  · simp only [mkFetchResult, getProcessedViewOf, mkFinalEntry, if_pos hcond]
    refine ⟨?_, ?_, ?_, ?_, ?_, ?_, ?_, ?_, ?_, ?_, ?_, ?_⟩ <;>
      first
        | trivial
        | (intro hw; exact absurd hw hcond.2)
        | (intro he; simp [he])
  · simp only [mkFetchResult, getProcessedViewOf, mkFinalEntry, if_neg hcond]
    refine ⟨?_, ?_, ?_, ?_, ?_, ?_, ?_, ?_, ?_, ?_, ?_, ?_⟩ <;>
      first
        | trivial
        | (intro he; simp [he])

/-- Claim C1 counterexample: a completed fetch without a `Content-Length`
header returns `contentSize = none`, while `getProcessedView` on the same
record immediately afterwards reports `contentSize = some 3` (the stored
byte length), so the two results are not identical on the claimed field
list. -/
theorem round_trip_counterexample :
    (fetchAndCacheSuccess plainExternals failEngine 10 100 10 (FetchStore.mk [] []) "r1"
      "https://example.com" "GET" none 0 200 "OK" none none false [] none [[1, 2, 3]] 4096
      {}).1.contentSize = none ∧
    ((getProcessedView plainExternals failEngine 0
      (fetchAndCacheSuccess plainExternals failEngine 10 100 10 (FetchStore.mk [] []) "r1"
        "https://example.com" "GET" none 0 200 "OK" none none false [] none [[1, 2, 3]] 4096
        {}).2 "r1" 4096 {}).1.map (fun v => v.contentSize)) = some (some 3) ∧
    (none : Option Nat) ≠ some 3 := by
  exact ⟨by decide, by decide, by decide⟩

/-- Claim C1 (amended): `getProcessedView(requestId, opts)` called
immediately after a completed `fetchAndCache(url, ..., opts)` finds the
record and agrees with the returned `FetchResult` on `status`,
`contentType`, `actualSize`, `processed`, `textSize`, `data`, `summary`,
`matches`, `rawPreview` and `isComplete`; `statusText` agrees whenever no
host-mismatch warning was appended; `contentSize` differs in general —
`fetchAndCache` reports the `Content-Length`-derived expected size while
`getProcessedView` reports the stored byte length — and agrees exactly when
those coincide. -/
theorem round_trip_amended {R : Type} (ext : Externals) (eng : RegexEngine R)
    (maxFileSize maxTotalCacheSize maxCacheSize : Nat) (st : FetchStore)
    (requestId url method : String) (headers : Option Headers) (timestamp : Nat)
    (httpStatus : Nat) (statusText : String) (contentType : Option String)
    (expectedSize : Option Nat) (includeResponseHeaders : Bool) (allHeaders : Headers)
    (hostMismatchWarning : Option String) (chunks : List Buf) (outputSize : Nat)
    (o : ProcOptions) (now2 : Nat)
    (hmax : 1 ≤ maxCacheSize)
    (hnodupO : st.accessOrder.Nodup)
    (hnodupC : (st.cache.map Prod.fst).Nodup)
    (hcover : ∀ k ∈ st.cache.map Prod.fst, k ∈ st.accessOrder)
    (hfreshC : mapGet requestId st.cache = none)
    (hfreshO : requestId ∉ st.accessOrder)
    (hfresh2 : ¬ now2 > timestamp + 3600000) :
    ∃ v : FetchResult,
      (getProcessedView ext eng now2
        (fetchAndCacheSuccess ext eng maxFileSize maxTotalCacheSize maxCacheSize st requestId
          url method headers timestamp httpStatus statusText contentType expectedSize
          includeResponseHeaders allHeaders hostMismatchWarning chunks outputSize o).2
        requestId outputSize o).1 = some v ∧
      (fetchAndCacheSuccess ext eng maxFileSize maxTotalCacheSize maxCacheSize st requestId
        url method headers timestamp httpStatus statusText contentType expectedSize
        includeResponseHeaders allHeaders hostMismatchWarning chunks outputSize
        o).1.status = v.status ∧
      (hostMismatchWarning = none →
        (fetchAndCacheSuccess ext eng maxFileSize maxTotalCacheSize maxCacheSize st requestId
          url method headers timestamp httpStatus statusText contentType expectedSize
          includeResponseHeaders allHeaders hostMismatchWarning chunks outputSize
          o).1.statusText = v.statusText) ∧
      (fetchAndCacheSuccess ext eng maxFileSize maxTotalCacheSize maxCacheSize st requestId
        url method headers timestamp httpStatus statusText contentType expectedSize
        includeResponseHeaders allHeaders hostMismatchWarning chunks outputSize
        o).1.contentType = v.contentType ∧
      (fetchAndCacheSuccess ext eng maxFileSize maxTotalCacheSize maxCacheSize st requestId
        url method headers timestamp httpStatus statusText contentType expectedSize
        includeResponseHeaders allHeaders hostMismatchWarning chunks outputSize
        o).1.actualSize = v.actualSize ∧
      (fetchAndCacheSuccess ext eng maxFileSize maxTotalCacheSize maxCacheSize st requestId
        url method headers timestamp httpStatus statusText contentType expectedSize
        includeResponseHeaders allHeaders hostMismatchWarning chunks outputSize
        o).1.processed = v.processed ∧
      (fetchAndCacheSuccess ext eng maxFileSize maxTotalCacheSize maxCacheSize st requestId
        url method headers timestamp httpStatus statusText contentType expectedSize
        includeResponseHeaders allHeaders hostMismatchWarning chunks outputSize
        o).1.textSize = v.textSize ∧
      (fetchAndCacheSuccess ext eng maxFileSize maxTotalCacheSize maxCacheSize st requestId
        url method headers timestamp httpStatus statusText contentType expectedSize
        includeResponseHeaders allHeaders hostMismatchWarning chunks outputSize
        o).1.data = v.data ∧
      (fetchAndCacheSuccess ext eng maxFileSize maxTotalCacheSize maxCacheSize st requestId
        url method headers timestamp httpStatus statusText contentType expectedSize
        includeResponseHeaders allHeaders hostMismatchWarning chunks outputSize
        o).1.summary = v.summary ∧
      (fetchAndCacheSuccess ext eng maxFileSize maxTotalCacheSize maxCacheSize st requestId
        url method headers timestamp httpStatus statusText contentType expectedSize
        includeResponseHeaders allHeaders hostMismatchWarning chunks outputSize
        o).1.matchResults = v.matchResults ∧
      (fetchAndCacheSuccess ext eng maxFileSize maxTotalCacheSize maxCacheSize st requestId
        url method headers timestamp httpStatus statusText contentType expectedSize
        includeResponseHeaders allHeaders hostMismatchWarning chunks outputSize
        o).1.rawPreview = v.rawPreview ∧
      (fetchAndCacheSuccess ext eng maxFileSize maxTotalCacheSize maxCacheSize st requestId
        url method headers timestamp httpStatus statusText contentType expectedSize
        includeResponseHeaders allHeaders hostMismatchWarning chunks outputSize
        o).1.isComplete = v.isComplete ∧
      (expectedSize = some (allDataOf maxFileSize chunks).length →
        (fetchAndCacheSuccess ext eng maxFileSize maxTotalCacheSize maxCacheSize st requestId
          url method headers timestamp httpStatus statusText contentType expectedSize
          includeResponseHeaders allHeaders hostMismatchWarning chunks outputSize
          o).1.contentSize = v.contentSize) := by
  have hst : (fetchAndCacheSuccess ext eng maxFileSize maxTotalCacheSize maxCacheSize st
      requestId url method headers timestamp httpStatus statusText contentType expectedSize
      includeResponseHeaders allHeaders hostMismatchWarning chunks outputSize o).2 =
      fetchInsert maxTotalCacheSize maxCacheSize st requestId
        (initialEntry requestId url method headers timestamp (timestamp + 3600000))
        (mkFinalEntry
          (initialEntry requestId url method headers timestamp (timestamp + 3600000))
          httpStatus statusText contentType expectedSize
          (if includeResponseHeaders then some allHeaders else none)
          (allDataOf maxFileSize chunks) (fetchedSizeOf maxFileSize chunks))
        (fetchedSizeOf maxFileSize chunks) := rfl
  have hr : (fetchAndCacheSuccess ext eng maxFileSize maxTotalCacheSize maxCacheSize st
      requestId url method headers timestamp httpStatus statusText contentType expectedSize
      includeResponseHeaders allHeaders hostMismatchWarning chunks outputSize o).1 =
      mkFetchResult ext eng requestId httpStatus statusText contentType expectedSize
        (fetchedSizeOf maxFileSize chunks) (allDataOf maxFileSize chunks) outputSize o
        includeResponseHeaders (if includeResponseHeaders then some allHeaders else none)
        hostMismatchWarning := rfl
  have hsurv := fetchInsert_get maxTotalCacheSize maxCacheSize st requestId url method
    headers timestamp (timestamp + 3600000)
    (mkFinalEntry (initialEntry requestId url method headers timestamp (timestamp + 3600000))
      httpStatus statusText contentType expectedSize
      (if includeResponseHeaders then some allHeaders else none)
      (allDataOf maxFileSize chunks) (fetchedSizeOf maxFileSize chunks))
    (fetchedSizeOf maxFileSize chunks) hmax hnodupO hnodupC hcover hfreshC hfreshO
  have hexp : ¬ isExpired now2 (mkFinalEntry
      (initialEntry requestId url method headers timestamp (timestamp + 3600000))
      httpStatus statusText contentType expectedSize
      (if includeResponseHeaders then some allHeaders else none)
      (allDataOf maxFileSize chunks) (fetchedSizeOf maxFileSize chunks)).expiresAt = true := by
    simpa [isExpired, mkFinalEntry, initialEntry] using hfresh2
  have hview : (getProcessedView ext eng now2
      (fetchAndCacheSuccess ext eng maxFileSize maxTotalCacheSize maxCacheSize st requestId
        url method headers timestamp httpStatus statusText contentType expectedSize
        includeResponseHeaders allHeaders hostMismatchWarning chunks outputSize o).2
      requestId outputSize o).1 =
      some (getProcessedViewOf ext eng
        (mkFinalEntry
          (initialEntry requestId url method headers timestamp (timestamp + 3600000))
          httpStatus statusText contentType expectedSize
          (if includeResponseHeaders then some allHeaders else none)
          (allDataOf maxFileSize chunks) (fetchedSizeOf maxFileSize chunks))
        outputSize o) := by
    rw [hst, getProcessedView, getByRequestId, hsurv]
    dsimp only
    rw [if_neg hexp]
  have hfields := roundTripFields ext eng
    (initialEntry requestId url method headers timestamp (timestamp + 3600000)) requestId
    httpStatus statusText contentType expectedSize
    (if includeResponseHeaders then some allHeaders else none)
    (allDataOf maxFileSize chunks) (fetchedSizeOf maxFileSize chunks) outputSize o
    includeResponseHeaders hostMismatchWarning
  refine ⟨getProcessedViewOf ext eng
    (mkFinalEntry (initialEntry requestId url method headers timestamp (timestamp + 3600000))
      httpStatus statusText contentType expectedSize
      (if includeResponseHeaders then some allHeaders else none)
      (allDataOf maxFileSize chunks) (fetchedSizeOf maxFileSize chunks)) outputSize o,
    hview, ?_, ?_, ?_, ?_, ?_, ?_, ?_, ?_, ?_, ?_, ?_, ?_⟩
  · rw [hr]; exact hfields.1
  · rw [hr]; exact hfields.2.1
  · rw [hr]; exact hfields.2.2.1
  · rw [hr]; exact hfields.2.2.2.1
  · rw [hr]; exact hfields.2.2.2.2.1
  · rw [hr]; exact hfields.2.2.2.2.2.1
  · rw [hr]; exact hfields.2.2.2.2.2.2.1
  · rw [hr]; exact hfields.2.2.2.2.2.2.2.1
  · rw [hr]; exact hfields.2.2.2.2.2.2.2.2.1
  · rw [hr]; exact hfields.2.2.2.2.2.2.2.2.2.1
  · rw [hr]; exact hfields.2.2.2.2.2.2.2.2.2.2.1
  · rw [hr]
    intro he
    exact hfields.2.2.2.2.2.2.2.2.2.2.2 he

/-- Witness for C1 (amended) on an empty store with a single 3-byte chunk. -/
theorem round_trip_amended_witness :
    ∃ v : FetchResult,
      (getProcessedView plainExternals failEngine 0
        (fetchAndCacheSuccess plainExternals failEngine 10 100 10 (FetchStore.mk [] []) "r1"
          "https://example.com" "GET" none 0 200 "OK" none (some 3) false [] none [[1, 2, 3]]
          4096 {}).2 "r1" 4096 {}).1 = some v ∧
      (fetchAndCacheSuccess plainExternals failEngine 10 100 10 (FetchStore.mk [] []) "r1"
        "https://example.com" "GET" none 0 200 "OK" none (some 3) false [] none [[1, 2, 3]]
        4096 {}).1.status = v.status := by
  obtain ⟨v, hv, hs, _⟩ := round_trip_amended plainExternals failEngine 10 100 10
    (FetchStore.mk [] []) "r1" "https://example.com" "GET" none 0 200 "OK" none (some 3)
    false [] none [[1, 2, 3]] 4096 {} 0 (by decide) (by decide) (by decide) (by decide)
    (by decide) (by decide) (by decide)
  exact ⟨v, hv, hs⟩

end McpSearch
